import Mathlib

/-!
Shallow embedding of `src/Particle/LoadBalance/Par_LB_CollectParticle2OneLevel.cpp`
(GAMER), covering `Par_LB_CollectParticle2OneLevel` and
`Par_LB_CollectParticle2OneLevel_FreeMemory` in the diagnostic (DEBUG_PARTICLE)
build with LOAD_BALANCE == HILBERT.

Modelling conventions:
* `real` particle fields are embedded as `ℚ` (the code only copies and compares
  them; no rounding is exercised by the verified properties).
* The distributed state of all MPI ranks is modelled as one global `AMRState`:
  per level, a single list of patches (real patches first, as in
  `amr->patch[0][lv]` where `NPatchComma[lv][1]` counts the real ones).
  The MPI send/heapsort/`Mis_Matching_int` round trip routes each send record,
  keyed by its level-`FaLv` load-balance index, to the real patch at `FaLv`
  holding that `LB_Idx`; the per-rank flat buffers with prefix-sum offsets are
  represented as a list of records in traversal order (no verified property
  observes the rank-interleaved arrival order).
* `Aux_Error` aborts the process, so no state mutated before an abort is ever
  observable; the diagnostic build is therefore embedded as an `Except String`
  computation in which every `Aux_Error` site becomes an `.error` and the
  mutations are pure list transforms, applied only when the guards pass.
* `new real [n]` followed by index-writes is modelled by growing lists
  (allocation = four empty lists, each write = append); the debug checks on
  flat-buffer offsets (lines 237-243 of the source) are artifacts of the
  pointer layout and have no counterpart on lists.
-/

/-- Particle fields (`real` in the code) are embedded as rationals. -/
abbrev R := ℚ

/-- The four per-patch shadow arrays `ParMassPos_Copy[0..3]`
(slots `PAR_MASS`, `PAR_POSX`, `PAR_POSY`, `PAR_POSZ`); each is independently
nullable, as in the code. -/
structure ShadowPtrs where
  mass : Option (List R)
  posX : Option (List R)
  posY : Option (List R)
  posZ : Option (List R)
deriving DecidableEq, Repr

/-- All four `ParMassPos_Copy` pointers NULL. -/
def ShadowPtrs.null : ShadowPtrs := ⟨none, none, none, none⟩

/-- One AMR patch: the fields of `patch_t` read or written by this file.
`son = -1` marks a leaf; `NPar_Copy = -1` is the "no shadow collected"
sentinel. -/
structure Patch where
  son       : Int
  NPar      : Nat
  ParList   : List Nat
  LB_Idx    : Nat
  corner    : Nat × Nat × Nat
  EdgeL     : R × R × R
  EdgeR     : R × R × R
  NPar_Copy : Int
  ParMassPos_Copy : ShadowPtrs
deriving DecidableEq, Repr

instance : Inhabited Patch :=
  ⟨⟨-1, 0, [], 0, (0, 0, 0), (0, 0, 0), (0, 0, 0), -1, ShadowPtrs.null⟩⟩

/-- Global (all ranks combined) state of the AMR hierarchy and particle store.
`patches` lists, per level, all patches with the real ones first;
`NReal` is `NPatchComma[lv][1]`; `R2B_Buff`/`R2B_Real` are the precomputed
(sibling, father-sibling) buffer-pairing PID lists
`amr->Par->R2B_Buff_PIDList[lv][0/1]` / `R2B_Real_PIDList[lv][0/1]`;
`NPar_Lv` is the independently tracked per-level global particle count. -/
structure AMRState where
  maxLevel : Nat
  patches  : List (List Patch)
  NReal    : List Nat
  R2B_Buff : List (List Nat × List Nat)
  R2B_Real : List (List Nat × List Nat)
  NPar_Lv  : List Int
  Mass     : List R
  PosX     : List R
  PosY     : List R
  PosZ     : List R
  PTime    : List R
  IntegIsKDK : Bool
deriving DecidableEq, Repr

/-- All patches (real and buffer) at one level: `amr->patch[0][lv]`. -/
def AMRState.patchesAt (s : AMRState) (lv : Nat) : List Patch :=
  s.patches.getD lv []

/-- `amr->NPatchComma[lv][1]`, the number of real patches at `lv`. -/
def AMRState.nReal (s : AMRState) (lv : Nat) : Nat :=
  s.NReal.getD lv 0

/-- The real patches at one level (the leading `NPatchComma[lv][1]` entries). -/
def AMRState.realAt (s : AMRState) (lv : Nat) : List Patch :=
  (s.patchesAt lv).take (s.nReal lv)

/-- Patch lookup `amr->patch[0][lv][pid]` (default patch out of range). -/
def AMRState.patchAt (s : AMRState) (lv pid : Nat) : Patch :=
  (s.patchesAt lv).getD pid default

/-- Replace the whole patch list of one level. -/
def AMRState.setLevel (s : AMRState) (lv : Nat) (l : List Patch) : AMRState :=
  { s with patches := s.patches.set lv l }

/-- Update one patch in a patch list (no-op out of range, like the code's
in-place write which never goes out of range on the verified paths). -/
def modPatch (l : List Patch) (pid : Nat) (f : Patch → Patch) : List Patch :=
  l.set pid (f (l.getD pid default))

/-- Update `amr->patch[0][lv][pid]` in place. -/
def AMRState.modAt (s : AMRState) (lv pid : Nat) (f : Patch → Patch) : AMRState :=
  s.setLevel lv (modPatch (s.patchesAt lv) pid f)

/-- Free the four `ParMassPos_Copy` arrays (NULLing the pointers) and reset
`NPar_Copy` to `-1`: the per-patch body of the teardown loops. -/
def clearShadow (p : Patch) : Patch :=
  { p with NPar_Copy := -1, ParMassPos_Copy := ShadowPtrs.null }

/-- A patch in the "nothing collected" state: `NPar_Copy == -1` and all four
`ParMassPos_Copy` pointers NULL. -/
def shadowFree (p : Patch) : Prop :=
  p.NPar_Copy = -1 ∧ p.ParMassPos_Copy = ShadowPtrs.null

instance (p : Patch) : Decidable (shadowFree p) := by
  unfold shadowFree; infer_instance

/-- `amr->Par->R2B_Buff_PIDList[lv][0]` (sibling-buffer destinations at `lv`). -/
def AMRState.sibBuffList (s : AMRState) (lv : Nat) : List Nat :=
  (s.R2B_Buff.getD lv ([], [])).1

/-- `amr->Par->R2B_Buff_PIDList[lv][1]` (father-sibling-buffer destinations at
`lv-1`). -/
def AMRState.faSibBuffList (s : AMRState) (lv : Nat) : List Nat :=
  (s.R2B_Buff.getD lv ([], [])).2

/-- `amr->Par->R2B_Real_PIDList[lv][0]`. -/
def AMRState.sibRealList (s : AMRState) (lv : Nat) : List Nat :=
  (s.R2B_Real.getD lv ([], [])).1

/-- `amr->Par->R2B_Real_PIDList[lv][1]`. -/
def AMRState.faSibRealList (s : AMRState) (lv : Nat) : List Nat :=
  (s.R2B_Real.getD lv ([], [])).2

/-!  ## Teardown: `Par_LB_CollectParticle2OneLevel_FreeMemory`

The mutation part is a total state transform; the `DEBUG_PARTICLE`
post-condition scan (source lines 616-634) runs after all mutation and aborts
without further effect, so it is modelled separately as a Boolean check on the
resulting state. -/

/-- Step 1 of the teardown: clear the shadow state of every real patch at
`lv` (`PID < NPatchComma[lv][1]`). -/
def freeRealLevel (s : AMRState) (lv : Nat) : AMRState :=
  s.setLevel lv
    (((s.patchesAt lv).take (s.nReal lv)).map clearShadow
      ++ (s.patchesAt lv).drop (s.nReal lv))

/-- Clear the shadow state of the listed PIDs at one level (teardown steps 2
and 3). -/
def freePIDList (s : AMRState) (lv : Nat) (pids : List Nat) : AMRState :=
  pids.foldl (fun st pid => st.modAt lv pid clearShadow) s

/-- `Par_LB_CollectParticle2OneLevel_FreeMemory` (source lines 551-613):
clear real patches at `lv`, then the sibling-buffer PID list at `lv` when
`SibBufPatch`, then the father-sibling-buffer PID list at `lv-1` when
`FaSibBufPatch` and `lv ≥ 1`. -/
def Par_LB_CollectParticle2OneLevel_FreeMemory (s : AMRState) (lv : Nat)
    (SibBufPatch FaSibBufPatch : Bool) : AMRState :=
  let s1 := freeRealLevel s lv
  let s2 := if SibBufPatch then freePIDList s1 lv (s.sibBuffList lv) else s1
  if FaSibBufPatch ∧ 1 ≤ lv then freePIDList s2 (lv - 1) (s.faSibBuffList lv)
  else s2

/-- One level passes the teardown's debug scan: every patch (real or buffer)
has `NPar_Copy == -1` and NULL `ParMassPos_Copy`. -/
def levelShadowFree (s : AMRState) (lv : Nat) : Bool :=
  (s.patchesAt lv).all (fun p => decide (shadowFree p))

/-- The `DEBUG_PARTICLE` post-condition of the teardown (source lines 616-634):
scan levels `lv` and `lv-1` (when `lv ≥ 1`) over all real and buffer
patches. -/
def FreeMemory_check (s : AMRState) (lv : Nat) : Bool :=
  levelShadowFree s lv && (if 1 ≤ lv then levelShadowFree s (lv - 1) else true)

/-!  ## Collection: `Par_LB_CollectParticle2OneLevel` -/

/-- `ParList[0..NPar)` of one patch (array reads embedded with default `0`). -/
def patchParIDs (p : Patch) : List Nat :=
  (List.range p.NPar).map (fun i => p.ParList.getD i 0)

/-- `(Mass, PosX, PosY, PosZ)` of one particle, read straight from the
particle store (`amr->Par->ParVar`). -/
def rawTuple (s : AMRState) (id : Nat) : R × R × R × R :=
  (s.Mass.getD id 0, s.PosX.getD id 0, s.PosY.getD id 0, s.PosZ.getD id 0)

/-- The 4-field block written into the send buffer for one particle: the raw
fields, with the 3 position slots overwritten by `Par_PredictPos` (the external
pure transform `pred`) when `PredictPos` is on (source lines 254-274). -/
def sentTuple (s : AMRState) (pred : Nat → R × R × R → R × R × R)
    (PredictPos : Bool) (id : Nat) : R × R × R × R :=
  let t := rawTuple s id
  if PredictPos then
    let q := pred id (t.2.1, t.2.2.1, t.2.2.2)
    (t.1, q.1, q.2.1, q.2.2)
  else t

/-- One send record: the level-`FaLv` ownership key, the particle count, and
(unless `JustCountNPar`) the per-particle 4-field blocks, matching
`SendBuf_LBIdxEachPatch` / `SendBuf_NParEachPatch` /
`SendBuf_ParDataEachPatch`. -/
structure SendRec where
  key  : Nat
  nPar : Nat
  data : List (R × R × R × R)
deriving DecidableEq, Repr

/-- The HILBERT fast-path ownership key of a finer-level patch at level `lv`
relative to `FaLv`: `LB_Idx / ( 1 << (3*(lv-FaLv)) )` (source lines 172,
228). -/
def shiftKey (FaLv lv key : Nat) : Nat :=
  key / 2 ^ (3 * (lv - FaLv))

/-- The real source patches scanned by the aggregation pass, in traversal
order: `for lv = FaLv+1 .. MAX_LEVEL, for PID < NPatchComma[lv][1]`. -/
def srcPatches (s : AMRState) (FaLv : Nat) : List (Nat × Patch) :=
  (List.range' (FaLv + 1) (s.maxLevel - FaLv)).flatMap
    (fun lv => (s.realAt lv).map (fun p => (lv, p)))

/-- The send records built by the aggregation pass (patches with `NPar == 0`
are skipped; in `JustCountNPar` mode no field data is packed). -/
def mkRecs (s : AMRState) (pred : Nat → R × R × R → R × R × R) (FaLv : Nat)
    (PredictPos JustCountNPar : Bool) : List SendRec :=
  (srcPatches s FaLv).filterMap (fun lp =>
    if lp.2.NPar = 0 then none
    else some ⟨shiftKey FaLv lp.1 lp.2.LB_Idx, lp.2.NPar,
               if JustCountNPar then []
               else (patchParIDs lp.2).map (sentTuple s pred PredictPos)⟩)

/-- Debug guard of the aggregation pass (source line 162): every finer-level
real patch holding particles must be a leaf. -/
def srcLeafGuard (s : AMRState) (FaLv : Nat) : Bool :=
  (srcPatches s FaLv).all (fun lp => lp.2.NPar == 0 || lp.2.son == -1)

/-- Debug guard of position prediction (source line 265): no sent particle may
still carry a negative time tag. -/
def predTimeGuard (s : AMRState) (FaLv : Nat) : Bool :=
  (srcPatches s FaLv).all (fun lp =>
    lp.2.NPar == 0 ||
    (patchParIDs lp.2).all (fun id => !(s.PTime.getD id 0 < 0 : Bool)))

/-- `Mis_Heapsort` + `Mis_Matching_int` against `amr->LB->IdxList_Real[FaLv]`:
the received record with key `k` is stored into the real patch at `FaLv`
whose `LB_Idx` equals `k`. -/
def matchIdx : List Patch → Nat → Option Nat
  | [], _ => none
  | q :: rest, key =>
      if q.LB_Idx = key then some 0 else (matchIdx rest key).map (· + 1)

/-- The matched records `(record, FaPID)` in arrival order (`FaPIDList` in the
source); unmatched records are guarded against separately. -/
def recsPid (reals : List Patch) (recs : List SendRec) : List (SendRec × Nat) :=
  recs.filterMap (fun r => (matchIdx reals r.key).map (fun i => (r, i)))

/-- Step 3-2 seed (source lines 334-335): initialize `NPar_Copy` to `NPar` for
every non-leaf real patch. -/
def seedNonLeaf (reals : List Patch) : List Patch :=
  reals.map (fun q => if q.son = -1 then q else { q with NPar_Copy := (q.NPar : Int) })

/-- Step 3-2 accumulation (source line 357): add each matched record's particle
count to its destination's `NPar_Copy`. -/
def accumRecs (rp : List (SendRec × Nat)) (l : List Patch) : List Patch :=
  rp.foldl (fun acc ri =>
    modPatch acc ri.2 (fun q => { q with NPar_Copy := q.NPar_Copy + (ri.1.nPar : Int) })) l

/-- Step 3-3 (source lines 371-384): allocate the four `ParMassPos_Copy`
arrays for every real patch with `NPar_Copy > 0` and reset `NPar_Copy` to `0`
as the fill cursor (allocation is modelled as four empty lists that the fill
passes append to). -/
def allocShadow (l : List Patch) : List Patch :=
  l.map (fun q =>
    if 0 < q.NPar_Copy then
      { q with ParMassPos_Copy := ⟨some [], some [], some [], some []⟩, NPar_Copy := 0 }
    else q)

/-- Write one 4-field block at the fill cursor of the four shadow arrays
(a write through a NULL pointer is modelled as a no-op; the debug build guards
it separately). -/
def pushTuple (sp : ShadowPtrs) (t : R × R × R × R) : ShadowPtrs :=
  ⟨sp.mass.map (· ++ [t.1]), sp.posX.map (· ++ [t.2.1]),
   sp.posY.map (· ++ [t.2.2.1]), sp.posZ.map (· ++ [t.2.2.2])⟩

/-- Step 3-4 (source lines 391-442): for each matched record in arrival order,
advance the destination's `NPar_Copy` by the record's count and append its
4-field blocks to the destination's shadow arrays. -/
def fillRecs (rp : List (SendRec × Nat)) (l : List Patch) : List Patch :=
  rp.foldl (fun acc ri =>
    modPatch acc ri.2 (fun q =>
      { q with NPar_Copy := q.NPar_Copy + (ri.1.nPar : Int),
               ParMassPos_Copy := ri.1.data.foldl pushTuple q.ParMassPos_Copy })) l

/-- All four shadow pointers of patch `i` non-NULL (debug check of source
line 409, evaluated on the post-allocation list). -/
def allocatedAt (l : List Patch) (i : Nat) : Bool :=
  let sp := (l.getD i default).ParMassPos_Copy
  sp.mass.isSome && sp.posX.isSome && sp.posY.isSome && sp.posZ.isSome

/-- The half-open home-patch bounds check of source lines 425-439: every
position component within `[EdgeL, EdgeR)`. -/
def inPatchBox (q : Patch) (t : R × R × R × R) : Bool :=
  decide (q.EdgeL.1 ≤ t.2.1 ∧ t.2.1 < q.EdgeR.1 ∧
          q.EdgeL.2.1 ≤ t.2.2.1 ∧ t.2.2.1 < q.EdgeR.2.1 ∧
          q.EdgeL.2.2 ≤ t.2.2.2 ∧ t.2.2.2 < q.EdgeR.2.2)

/-- Step 4 (source lines 445-477): append the particles temporarily residing
in each non-leaf real patch (read raw from the particle store, no prediction)
to its own shadow arrays, and add their count to `NPar_Copy`. -/
def mergeResident (s : AMRState) (l : List Patch) : List Patch :=
  l.map (fun q =>
    if q.son ≠ -1 ∧ 0 < q.NPar then
      { q with ParMassPos_Copy := ((patchParIDs q).map (rawTuple s)).foldl pushTuple q.ParMassPos_Copy,
               NPar_Copy := q.NPar_Copy + (q.NPar : Int) }
    else q)

/-- Debug guard of step 4-1 (source line 460): with the KDK integrator, every
resident particle of a non-leaf target patch must carry a negative time tag
(it is waiting for the velocity correction). -/
def kdkGuard (s : AMRState) (FaLv : Nat) : Bool :=
  !s.IntegIsKDK ||
  (s.realAt FaLv).all (fun q =>
    !(q.son != -1 && 0 < q.NPar : Bool) ||
    (patchParIDs q).all (fun id => (s.PTime.getD id 0 < 0 : Bool)))

/-- `NParLocal_Get` of step 5 (source lines 484-486): `NPar` for leaves,
`NPar_Copy` for non-leaf patches, summed over the real patches at `FaLv`. -/
def countGet (l : List Patch) : Int :=
  (l.map (fun q => if q.son = -1 then (q.NPar : Int) else q.NPar_Copy)).sum

/-- `NParLocal_Check` of step 5 (source line 488): the `NPar_Lv` table summed
over the levels `FaLv .. MAX_LEVEL`. -/
def countExpected (s : AMRState) (FaLv : Nat) : Int :=
  ((List.range' FaLv (s.maxLevel + 1 - FaLv)).map (fun lv => s.NPar_Lv.getD lv 0)).sum

/-- Write the transformed real-patch list back over the leading
`NPatchComma[FaLv][1]` entries of level `FaLv`. -/
def writeBack (s : AMRState) (FaLv : Nat) (l : List Patch) : AMRState :=
  s.setLevel FaLv (l ++ (s.patchesAt FaLv).drop (s.nReal FaLv))

/-- Modelled from the spec: `Par_LB_CollectParticleFromRealPatch` is code of
this repository that is not under `src/` (only its call sites are).  Following
spec section 4.7, for each (real source patch, destination buffer patch) pair
of the precomputed pairing lists at the given level, it copies the four field
values of the source's resident particles (with the same optional
position-prediction step) into the destination buffer patch's shadow storage
and sets its shadow count. -/
def Par_LB_CollectParticleFromRealPatch (s : AMRState)
    (pred : Nat → R × R × R → R × R × R) (lv : Nat)
    (buffPIDs realPIDs : List Nat) (PredictPos : Bool) : AMRState :=
  (realPIDs.zip buffPIDs).foldl
    (fun st sd =>
      let ts := (patchParIDs (st.patchAt lv sd.1)).map (sentTuple st pred PredictPos)
      st.modAt lv sd.2 (fun q =>
        { q with NPar_Copy := (ts.length : Int),
                 ParMassPos_Copy := ts.foldl pushTuple ⟨some [], some [], some [], some []⟩ }))
    s

/-- Steps 0-1/0-2 and 6-1/6-2: the two optional buffer-patch collections
(sibling buffers at `FaLv`, father-sibling buffers at `FaLv-1`), both skipped
in `JustCountNPar` mode. -/
def collectBuffers (s : AMRState) (pred : Nat → R × R × R → R × R × R)
    (FaLv : Nat) (PredictPos SibBufPatch FaSibBufPatch JustCountNPar : Bool) : AMRState :=
  let s1 := if SibBufPatch && !JustCountNPar then
      Par_LB_CollectParticleFromRealPatch s pred FaLv
        (s.sibBuffList FaLv) (s.sibRealList FaLv) PredictPos
    else s
  if FaSibBufPatch && decide (0 < FaLv) && !JustCountNPar then
    Par_LB_CollectParticleFromRealPatch s1 pred (FaLv - 1)
      (s.faSibBuffList FaLv) (s.faSibRealList FaLv) PredictPos
  else s1

/-- Entry debug guard (source lines 90-103): no real patch at `FaLv` may have
initialized shadow state. -/
def cleanGuard (s : AMRState) (FaLv : Nat) : Bool :=
  (s.realAt FaLv).all (fun p => decide (shadowFree p))

/-- The matched records `(record, destination index)` of one collection call. -/
def rpOf (s : AMRState) (pd : Nat → R × R × R → R × R × R) (FaLv : Nat)
    (PredictPos JustCountNPar : Bool) : List (SendRec × Nat) :=
  recsPid (s.realAt FaLv) (mkRecs s pd FaLv PredictPos JustCountNPar)

/-- The real-patch list at `FaLv` after the counting passes of the
`JustCountNPar` mode (seed + accumulate). -/
def countResult (s : AMRState) (pd : Nat → R × R × R → R × R × R) (FaLv : Nat)
    (PredictPos JustCountNPar : Bool) : List Patch :=
  accumRecs (rpOf s pd FaLv PredictPos JustCountNPar) (seedNonLeaf (s.realAt FaLv))

/-- The real-patch list at `FaLv` after the full pipeline (seed, accumulate,
allocate, fill, merge). -/
def mainResult (s : AMRState) (pd : Nat → R × R × R → R × R × R) (FaLv : Nat)
    (PredictPos : Bool) : List Patch :=
  mergeResident s (fillRecs (rpOf s pd FaLv PredictPos false)
    (allocShadow (accumRecs (rpOf s pd FaLv PredictPos false)
      (seedNonLeaf (s.realAt FaLv)))))

/-- Debug guard: every received record finds a matching real patch (source
line 344). -/
def matchGuard (s : AMRState) (pd : Nat → R × R × R → R × R × R) (FaLv : Nat)
    (PredictPos JustCountNPar : Bool) : Bool :=
  (mkRecs s pd FaLv PredictPos JustCountNPar).all
    (fun r => (matchIdx (s.realAt FaLv) r.key).isSome)

/-- Debug guard: no received record matches a leaf patch (source line 352). -/
def sonGuard (s : AMRState) (pd : Nat → R × R × R → R × R × R) (FaLv : Nat)
    (PredictPos JustCountNPar : Bool) : Bool :=
  (rpOf s pd FaLv PredictPos JustCountNPar).all
    (fun ri => ((s.realAt FaLv).getD ri.2 default).son != -1)

/-- Debug guard: every received record carries a positive count (source
line 400). -/
def posGuard (s : AMRState) (pd : Nat → R × R × R → R × R × R) (FaLv : Nat)
    (PredictPos : Bool) : Bool :=
  (rpOf s pd FaLv PredictPos false).all (fun ri => decide (0 < ri.1.nPar))

/-- Debug guard: the shadow arrays of every fill destination are allocated
(source line 409). -/
def allocGuard (s : AMRState) (pd : Nat → R × R × R → R × R × R) (FaLv : Nat)
    (PredictPos : Bool) : Bool :=
  (rpOf s pd FaLv PredictPos false).all
    (fun ri => allocatedAt (allocShadow (accumRecs (rpOf s pd FaLv PredictPos false)
        (seedNonLeaf (s.realAt FaLv)))) ri.2)

/-- Debug guard: no transmitted particle carries a negative mass (source
line 420). -/
def massGuard (s : AMRState) (pd : Nat → R × R × R → R × R × R) (FaLv : Nat)
    (PredictPos : Bool) : Bool :=
  (rpOf s pd FaLv PredictPos false).all
    (fun ri => ri.1.data.all (fun t => !(t.1 < 0 : Bool)))

/-- Debug guard: without position prediction, every received particle lies in
its destination's half-open bounds (source lines 425-439). -/
def boxGuard (s : AMRState) (pd : Nat → R × R × R → R × R × R) (FaLv : Nat)
    (PredictPos : Bool) : Bool :=
  (rpOf s pd FaLv PredictPos false).all
    (fun ri => ri.1.data.all (inPatchBox ((s.realAt FaLv).getD ri.2 default)))

/-- `Par_LB_CollectParticle2OneLevel` in the `DEBUG_PARTICLE` build: every
`Aux_Error` site is an `.error`; the external `Par_PredictPos` transform is
passed in as the pure function `pred TargetTime`. -/
def Par_LB_CollectParticle2OneLevel (pred : R → Nat → R × R × R → R × R × R)
    (s : AMRState) (FaLv : Nat) (PredictPos : Bool) (TargetTime : R)
    (SibBufPatch FaSibBufPatch JustCountNPar : Bool) : Except String AMRState :=
  if s.maxLevel < FaLv then .ok s
  else if JustCountNPar && PredictPos then
    .error "JustCountNPar does NOT work with PredictPos"
  else if JustCountNPar && SibBufPatch then
    .error "JustCountNPar does NOT work with SibBufPatch"
  else if JustCountNPar && FaSibBufPatch then
    .error "JustCountNPar does NOT work with FaSibBufPatch"
  else if !cleanGuard s FaLv then
    .error "particle parameters have been initialized already"
  else if FaLv = s.maxLevel then
    .ok (collectBuffers s (pred TargetTime) FaLv PredictPos SibBufPatch FaSibBufPatch JustCountNPar)
  else if !srcLeafGuard s FaLv then
    .error "non-leaf patch has particles"
  else if PredictPos && !predTimeGuard s FaLv then
    .error "ParTime < 0.0"
  else if !matchGuard s (pred TargetTime) FaLv PredictPos JustCountNPar then
    .error "LBIdx found no match"
  else if !sonGuard s (pred TargetTime) FaLv PredictPos JustCountNPar then
    .error "SonPID == -1"
  else if JustCountNPar then
    if countGet (countResult s (pred TargetTime) FaLv PredictPos JustCountNPar)
        != countExpected s FaLv then
      .error "Total number of active particles != expected"
    else
      .ok (writeBack s FaLv (countResult s (pred TargetTime) FaLv PredictPos JustCountNPar))
  else if !posGuard s (pred TargetTime) FaLv PredictPos then
    .error "RecvBuf_NParEachPatch <= 0"
  else if !allocGuard s (pred TargetTime) FaLv PredictPos then
    .error "particle parameters have NOT been initialized"
  else if !massGuard s (pred TargetTime) FaLv PredictPos then
    .error "found inactive particle"
  else if !PredictPos && !boxGuard s (pred TargetTime) FaLv PredictPos then
    .error "wrong home patch"
  else if !kdkGuard s FaLv then
    .error "This particle should not be here"
  else if countGet (mainResult s (pred TargetTime) FaLv PredictPos)
      != countExpected s FaLv then
    .error "Total number of active particles != expected"
  else
    .ok (collectBuffers (writeBack s FaLv (mainResult s (pred TargetTime) FaLv PredictPos))
        (pred TargetTime) FaLv PredictPos SibBufPatch FaSibBufPatch JustCountNPar)

/-!  ## Ownership index (spec section 4.1) -/

/-- Modelled from the spec: `LB_Corner2Index` is code of this repository that
is not under `src/` (this file only calls it).  Spec 4.1: "derive the key from
that coordinate via a fixed spatial encoding" of the recursive space-filling
curve; the encoding is modelled as 3-way bit interleaving of the per-axis
patch coordinates. -/
def interleave3 (x y z : Nat) : Nat :=
  if x + y + z = 0 then 0
  else x % 2 + 2 * (y % 2) + 4 * (z % 2) + 8 * interleave3 (x / 2) (y / 2) (z / 2)
termination_by x + y + z
decreasing_by omega

/-- Modelled from the spec: the generic-path key of a corner coordinate at a
level whose patch scale (`PS1 * amr->scale[lv]`) is `patchScale`. -/
def LB_Corner2Index (patchScale : Nat) (cr : Nat × Nat × Nat) : Nat :=
  interleave3 (cr.1 / patchScale) (cr.2.1 / patchScale) (cr.2.2 / patchScale)

/-- The generic-path corner truncation of source lines 174, 230:
`FaCr[d] = corner[d] - corner[d] % PatchScaleFaLv`. -/
def truncCorner (patchScale : Nat) (cr : Nat × Nat × Nat) : Nat × Nat × Nat :=
  (cr.1 - cr.1 % patchScale, cr.2.1 - cr.2.1 % patchScale, cr.2.2 - cr.2.2 % patchScale)

/-- Modelled from the spec: `LB_Index2Rank` is code of this repository that is
not under `src/` (this file only calls it).  Spec 4.1: "deterministic, total
function over the valid key domain for that level"; modelled as the rank whose
load-balance cut interval contains the key, from a per-level cut table. -/
def LB_Index2Rank (cut : Nat → List Nat) (lv : Nat) (key : Nat) : Nat :=
  ((cut lv).filter (fun c => c ≤ key)).length

/-- Two states agree on every field other than `patches`. -/
def eqExceptPatches (s t : AMRState) : Prop :=
  { s with patches := [] } = { t with patches := [] }

/-- Shadow cleanliness of the patch at one (level, PID) slot; out-of-range
slots read the default patch, which is clean. -/
def cleanAt (s : AMRState) (lv j : Nat) : Prop :=
  shadowFree ((s.patchesAt lv).getD j default)

instance (s : AMRState) (lv j : Nat) : Decidable (cleanAt s lv j) := by
  unfold cleanAt; infer_instance

/-!  ## Concrete states used as test inputs by the witness theorems -/

/-- A clean leaf patch. -/
def cleanLeaf : Patch :=
  { son := -1, NPar := 0, ParList := [], LB_Idx := 0, corner := (0, 0, 0),
    EdgeL := (0, 0, 0), EdgeR := (1, 1, 1), NPar_Copy := -1,
    ParMassPos_Copy := ShadowPtrs.null }

/-- A two-level hierarchy whose patches are all clean, with one
father-sibling-buffer pairing registered at level 1. -/
def cW : AMRState :=
  { maxLevel := 1, patches := [[cleanLeaf], [cleanLeaf]], NReal := [1, 1],
    R2B_Buff := [([], []), ([], [0])], R2B_Real := [([], []), ([], [0])],
    NPar_Lv := [0, 0], Mass := [], PosX := [], PosY := [], PosZ := [],
    PTime := [], IntegIsKDK := false }

/-- A non-leaf real patch still holding collected shadow state. -/
def dirtyReal : Patch :=
  { cleanLeaf with
    son := 0, NPar_Copy := 2,
    ParMassPos_Copy := ⟨some [1, 2], some [0, 0], some [0, 0], some [0, 0]⟩ }

/-- A hierarchy with one stale (already collected) real patch at level 1. -/
def cDirty : AMRState :=
  { cW with patches := [[cleanLeaf], [dirtyReal]] }

/-- A hierarchy whose single level-0 slot is a stale buffer patch
(`NPatchComma[0][1] = 0`, so the patch is a buffer patch) that is listed in
no buffer-release set. -/
def cStaleBuffer : AMRState :=
  { maxLevel := 0, patches := [[dirtyReal]], NReal := [0],
    R2B_Buff := [([], [])], R2B_Real := [([], [])], NPar_Lv := [0],
    Mass := [], PosX := [], PosY := [], PosZ := [], PTime := [],
    IntegIsKDK := false }

/-- Total particle count of the matched records routed to destination index
`i` (the contribution accumulated by source line 357 / line 397). -/
def rpSumAt (rp : List (SendRec × Nat)) (i : Nat) : Int :=
  ((rp.filter (fun ri => ri.2 == i)).map (fun ri => (ri.1.nPar : Int))).sum

/-- Concatenated 4-field blocks of the matched records routed to destination
index `i`, in arrival order. -/
def rpDataAt (rp : List (SendRec × Nat)) (i : Nat) : List (R × R × R × R) :=
  ((rp.filter (fun ri => ri.2 == i)).map (fun ri => ri.1.data)).flatten

/-- Total particle count of the received records whose ownership key equals
`key`. -/
def recvSum (recs : List SendRec) (key : Nat) : Int :=
  ((recs.filter (fun r => r.key == key)).map (fun r => (r.nPar : Int))).sum

/-- The freshly allocated (empty) shadow arrays of step 3-3. -/
def emptyShadow : ShadowPtrs := ⟨some [], some [], some [], some []⟩

/-- Write a whole sequence of 4-field blocks at the fill cursor. -/
def pushList (ts : List (R × R × R × R)) (sp : ShadowPtrs) : ShadowPtrs :=
  ts.foldl pushTuple sp

/-- The real patches at `FaLv` hold pairwise distinct ownership keys (one key,
one destination patch). -/
def distinctKeys (l : List Patch) : Prop :=
  l.Pairwise (fun p q => p.LB_Idx ≠ q.LB_Idx)

instance (l : List Patch) : Decidable (distinctKeys l) := by
  unfold distinctKeys
  infer_instance

/-- A non-leaf level-0 real patch covering `[0,8)^3` with ownership key 0. -/
def fatherP : Patch :=
  { son := 7, NPar := 0, ParList := [], LB_Idx := 0, corner := (0, 0, 0),
    EdgeL := (0, 0, 0), EdgeR := (8, 8, 8), NPar_Copy := -1,
    ParMassPos_Copy := ShadowPtrs.null }

/-- A leaf level-1 real patch covering `[4,8) x [0,4) x [0,4)` (the x-octant of
`fatherP`, key 1) holding particle 0. -/
def childP : Patch :=
  { son := -1, NPar := 1, ParList := [0], LB_Idx := 1, corner := (4, 0, 0),
    EdgeL := (4, 0, 0), EdgeR := (8, 4, 4), NPar_Copy := -1,
    ParMassPos_Copy := ShadowPtrs.null }

/-- A two-level hierarchy: `fatherP` at level 0, `childP` at level 1, one
particle of mass 2 at position (5, 1, 1). -/
def cC : AMRState :=
  { maxLevel := 1, patches := [[fatherP], [childP]], NReal := [1, 1],
    R2B_Buff := [([], []), ([], [])], R2B_Real := [([], []), ([], [])],
    NPar_Lv := [0, 1], Mass := [2], PosX := [5], PosY := [1], PosZ := [1],
    PTime := [0], IntegIsKDK := false }

/-- The identity position predictor used by the witness states. -/
def predId : R → Nat → R × R × R → R × R × R := fun _ _ p => p

/-!  ## List helpers -/

theorem getD_set_self {α : Type} : ∀ (l : List α) (i : Nat) (x d : α), i < l.length →
    (l.set i x).getD i d = x
  | [], i, x, d, h => absurd h (by simp)
  | a :: t, 0, x, d, _ => rfl
  | a :: t, i + 1, x, d, h => getD_set_self t i x d (by simpa using h)

theorem getD_set_ne {α : Type} : ∀ (l : List α) (i j : Nat) (x d : α), i ≠ j →
    (l.set i x).getD j d = l.getD j d
  | [], _, _, _, _, _ => by simp
  | a :: t, 0, 0, x, d, h => absurd rfl h
  | a :: t, 0, j + 1, x, d, _ => rfl
  | a :: t, i + 1, 0, x, d, _ => rfl
  | a :: t, i + 1, j + 1, x, d, h =>
      getD_set_ne t i j x d (fun e => h (congrArg Nat.succ e))

theorem set_self_getD {α : Type} : ∀ (l : List α) (i : Nat) (d : α),
    l.set i (l.getD i d) = l
  | [], _, _ => rfl
  | a :: t, 0, d => rfl
  | a :: t, i + 1, d => congrArg (a :: ·) (set_self_getD t i d)

theorem getD_append_left {α : Type} : ∀ (l m : List α) (j : Nat) (d : α), j < l.length →
    (l ++ m).getD j d = l.getD j d
  | [], _, _, _, h => absurd h (by simp)
  | a :: t, m, 0, d, _ => rfl
  | a :: t, m, j + 1, d, h => getD_append_left t m j d (by simpa using h)

theorem getD_append_right {α : Type} : ∀ (l m : List α) (j : Nat) (d : α), l.length ≤ j →
    (l ++ m).getD j d = m.getD (j - l.length) d
  | [], _, _, _, _ => by simp
  | a :: t, m, 0, d, h => absurd h (by simp)
  | a :: t, m, j + 1, d, h => by
      simpa [Nat.succ_sub_succ] using getD_append_right t m j d (by simpa using h)

/-!  ## Frame infrastructure: every mutation in this file only rewrites
`patches`; all other `AMRState` fields are untouched. -/

theorem eqExceptPatches.refl (s : AMRState) : eqExceptPatches s s := rfl

theorem eqExceptPatches.trans {s t u : AMRState}
    (h1 : eqExceptPatches s t) (h2 : eqExceptPatches t u) : eqExceptPatches s u := by
  have h1' : { s with patches := [] } = { t with patches := [] } := h1
  have h2' : { t with patches := [] } = { u with patches := [] } := h2
  exact h1'.trans h2'

theorem setLevel_eqExceptPatches (s : AMRState) (lv : Nat) (l : List Patch) :
    eqExceptPatches (s.setLevel lv l) s := rfl

theorem eqExceptPatches_foldl {β : Type} (g : AMRState → β → AMRState)
    (hg : ∀ st x, eqExceptPatches (g st x) st) :
    ∀ (xs : List β) (s : AMRState), eqExceptPatches (xs.foldl g s) s
  | [], s => eqExceptPatches.refl s
  | x :: xs, s => (eqExceptPatches_foldl g hg xs (g s x)).trans (hg s x)

theorem eqExceptPatches.fields {s t : AMRState} (h : eqExceptPatches s t) :
    s.maxLevel = t.maxLevel ∧ s.NReal = t.NReal ∧ s.R2B_Buff = t.R2B_Buff ∧
    s.R2B_Real = t.R2B_Real ∧ s.NPar_Lv = t.NPar_Lv ∧ s.Mass = t.Mass ∧
    s.PosX = t.PosX ∧ s.PosY = t.PosY ∧ s.PosZ = t.PosZ ∧ s.PTime = t.PTime ∧
    s.IntegIsKDK = t.IntegIsKDK := by
  have h' : { s with patches := ([] : List (List Patch)) } = { t with patches := [] } := h
  cases s; cases t
  simp only [AMRState.mk.injEq] at h'
  simp_all

theorem eqExceptPatches.nReal {s t : AMRState} (h : eqExceptPatches s t) (lv : Nat) :
    s.nReal lv = t.nReal lv := by
  simp [AMRState.nReal, h.fields.2.1]

theorem eqExceptPatches.sibBuffList {s t : AMRState} (h : eqExceptPatches s t) (lv : Nat) :
    s.sibBuffList lv = t.sibBuffList lv := by
  simp [AMRState.sibBuffList, h.fields.2.2.1]

theorem eqExceptPatches.faSibBuffList {s t : AMRState} (h : eqExceptPatches s t) (lv : Nat) :
    s.faSibBuffList lv = t.faSibBuffList lv := by
  simp [AMRState.faSibBuffList, h.fields.2.2.1]

theorem freePIDList_eqExceptPatches (s : AMRState) (lv : Nat) (pids : List Nat) :
    eqExceptPatches (freePIDList s lv pids) s :=
  eqExceptPatches_foldl (fun st pid => st.modAt lv pid clearShadow) (fun _ _ => rfl) pids s

theorem FreeMemory_eqExceptPatches (s : AMRState) (lv : Nat) (f1 f2 : Bool) :
    eqExceptPatches (Par_LB_CollectParticle2OneLevel_FreeMemory s lv f1 f2) s := by
  unfold Par_LB_CollectParticle2OneLevel_FreeMemory
  dsimp only
  have h1 : eqExceptPatches (freeRealLevel s lv) s := rfl
  have h2 : eqExceptPatches
      (if f1 = true then freePIDList (freeRealLevel s lv) lv (s.sibBuffList lv)
       else freeRealLevel s lv) s := by
    split
    · exact (freePIDList_eqExceptPatches _ _ _).trans h1
    · exact h1
  split
  · exact (freePIDList_eqExceptPatches _ _ _).trans h2
  · exact h2

theorem set_of_length_le {α : Type} : ∀ (l : List α) (i : Nat) (x : α), l.length ≤ i →
    l.set i x = l
  | [], _, _, _ => rfl
  | a :: t, 0, x, h => absurd h (by simp)
  | a :: t, i + 1, x, h => congrArg (a :: ·) (set_of_length_le t i x (by simpa using h))

/-!  ## Per-slot shadow cleanliness -/

theorem default_shadowFree : shadowFree (default : Patch) := ⟨rfl, rfl⟩

theorem clearShadow_shadowFree (p : Patch) : shadowFree (clearShadow p) := ⟨rfl, rfl⟩

theorem clearShadow_eq_self {p : Patch} (h : shadowFree p) : clearShadow p = p := by
  cases p; simp_all [clearShadow, shadowFree]

/-- How one in-place patch update reads back at every slot. -/
theorem patchesAt_modAt_getD (s : AMRState) (lv pid : Nat) (f : Patch → Patch) (lv' j : Nat) :
    ((s.modAt lv pid f).patchesAt lv').getD j default =
    if lv' = lv ∧ j = pid ∧ j < (s.patchesAt lv).length then f ((s.patchesAt lv).getD j default)
    else (s.patchesAt lv').getD j default := by
  show ((s.patches.set lv (modPatch (s.patchesAt lv) pid f)).getD lv' []).getD j default = _
  by_cases hlv : lv' = lv
  · subst hlv
    by_cases hrange : lv' < s.patches.length
    · rw [getD_set_self _ _ _ _ hrange]
      by_cases hj : j = pid
      · subst hj
        by_cases hjr : j < (s.patchesAt lv').length
        · rw [modPatch, getD_set_self _ _ _ _ hjr]
          simp [hjr]
        · rw [modPatch, List.getD_eq_default, List.getD_eq_default]
          · simp [hjr]
          · exact Nat.le_of_not_lt hjr
          · simpa using Nat.le_of_not_lt hjr
      · rw [modPatch, getD_set_ne _ _ _ _ _ (fun e => hj e.symm)]
        simp [hj, AMRState.patchesAt]
    · have hle : s.patches.length ≤ lv' := Nat.le_of_not_lt hrange
      rw [set_of_length_le _ _ _ hle]
      have hnil : s.patches.getD lv' [] = [] := List.getD_eq_default _ _ hle
      rw [show s.patchesAt lv' = s.patches.getD lv' [] from rfl, hnil]
      simp
  · rw [getD_set_ne _ _ _ _ _ (fun e => hlv e.symm)]
    simp [hlv, AMRState.patchesAt]

theorem getD_map_lt {α β : Type} (f : α → β) :
    ∀ (l : List α) (j : Nat) (d : β) (d' : α), j < l.length →
      (l.map f).getD j d = f (l.getD j d')
  | [], j, d, d', h => absurd h (by simp)
  | a :: t, 0, d, d', _ => rfl
  | a :: t, j + 1, d, d', h => getD_map_lt f t j d d' (by simpa using h)

theorem getD_drop {α : Type} : ∀ (l : List α) (n m : Nat) (d : α),
    (l.drop n).getD m d = l.getD (n + m) d
  | _, 0, _, _ => by simp
  | [], n + 1, m, d => by simp
  | a :: t, n + 1, m, d => by
      simpa [Nat.succ_add] using getD_drop t n m d

theorem patchesAt_setLevel (s : AMRState) (lv : Nat) (l : List Patch) (lv' : Nat) :
    (s.setLevel lv l).patchesAt lv' =
    if lv' = lv ∧ lv < s.patches.length then l else s.patchesAt lv' := by
  show (s.patches.set lv l).getD lv' [] = _
  by_cases hlv : lv' = lv
  · subst hlv
    by_cases hrange : lv' < s.patches.length
    · rw [getD_set_self _ _ _ _ hrange]; simp [hrange]
    · rw [set_of_length_le _ _ _ (Nat.le_of_not_lt hrange)]
      simp [hrange, AMRState.patchesAt]
  · rw [getD_set_ne _ _ _ _ _ (fun e => hlv e.symm)]
    simp [hlv, AMRState.patchesAt]

theorem cleanAt_modAt_clear_self (s : AMRState) (lv pid : Nat) :
    cleanAt (s.modAt lv pid clearShadow) lv pid := by
  unfold cleanAt
  rw [patchesAt_modAt_getD]
  split
  · exact clearShadow_shadowFree _
  · rename_i hcond
    have : (s.patchesAt lv).length ≤ pid := by
      by_contra hlt
      exact hcond ⟨rfl, rfl, Nat.lt_of_not_le hlt⟩
    rw [List.getD_eq_default _ _ this]
    exact default_shadowFree

theorem cleanAt_modAt_clear_mono (s : AMRState) (lv pid lv' j : Nat)
    (h : cleanAt s lv' j) : cleanAt (s.modAt lv pid clearShadow) lv' j := by
  unfold cleanAt
  rw [patchesAt_modAt_getD]
  split
  · exact clearShadow_shadowFree _
  · exact h

theorem freePIDList_cons (s : AMRState) (lv p : Nat) (rest : List Nat) :
    freePIDList s lv (p :: rest) = freePIDList (s.modAt lv p clearShadow) lv rest := rfl

theorem cleanAt_freePIDList_mono (lv : Nat) (pids : List Nat) :
    ∀ (s : AMRState) (lv' j : Nat), cleanAt s lv' j → cleanAt (freePIDList s lv pids) lv' j := by
  induction pids with
  | nil => exact fun s lv' j h => h
  | cons p rest ih =>
      intro s lv' j h
      rw [freePIDList_cons]
      exact ih _ _ _ (cleanAt_modAt_clear_mono s lv p lv' j h)

theorem cleanAt_freePIDList_mem (lv : Nat) (pids : List Nat) :
    ∀ (s : AMRState) (j : Nat), j ∈ pids → cleanAt (freePIDList s lv pids) lv j := by
  induction pids with
  | nil => intro s j h; cases h
  | cons p rest ih =>
      intro s j h
      rw [freePIDList_cons]
      rcases List.mem_cons.mp h with he | hm
      · subst he
        exact cleanAt_freePIDList_mono lv rest _ _ _ (cleanAt_modAt_clear_self s lv j)
      · exact ih _ _ hm

theorem cleanAt_freeRealLevel_self (s : AMRState) (lv j : Nat) (h : j < s.nReal lv) :
    cleanAt (freeRealLevel s lv) lv j := by
  unfold cleanAt freeRealLevel
  rw [patchesAt_setLevel]
  split
  · by_cases hj : j < (((s.patchesAt lv).take (s.nReal lv)).map clearShadow).length
    · rw [getD_append_left _ _ _ _ hj]
      rw [getD_map_lt clearShadow _ _ _ default (by simpa using hj)]
      exact clearShadow_shadowFree _
    · have hlen : (s.patchesAt lv).length ≤ j := by
        simp only [List.length_map, List.length_take, Nat.lt_min, not_and] at hj
        exact Nat.le_of_not_lt (fun hlt => hj h hlt)
      rw [getD_append_right _ _ _ _ (Nat.le_of_not_lt hj), List.getD_eq_default]
      · exact default_shadowFree
      · simp only [List.length_drop]
        omega
  · rename_i hcond
    have hle : s.patches.length ≤ lv := by
      by_contra hlt
      exact hcond ⟨rfl, Nat.lt_of_not_le hlt⟩
    have hnil : s.patchesAt lv = [] := List.getD_eq_default _ _ hle
    rw [hnil]
    exact default_shadowFree

theorem cleanAt_freeRealLevel_mono (s : AMRState) (lv lv' j : Nat)
    (h : cleanAt s lv' j) : cleanAt (freeRealLevel s lv) lv' j := by
  by_cases hlv : lv' = lv
  · subst hlv
    by_cases hj : j < s.nReal lv'
    · exact cleanAt_freeRealLevel_self s lv' j hj
    · unfold cleanAt freeRealLevel
      rw [patchesAt_setLevel]
      split
      · have htl : (((s.patchesAt lv').take (s.nReal lv')).map clearShadow).length ≤ j := by
          simp only [List.length_map, List.length_take]
          exact le_trans (Nat.min_le_left _ _) (Nat.le_of_not_lt hj)
        rw [getD_append_right _ _ _ _ htl, getD_drop]
        by_cases hcmp : s.nReal lv' ≤ (s.patchesAt lv').length
        · have hmin : (((s.patchesAt lv').take (s.nReal lv')).map clearShadow).length
              = s.nReal lv' := by
            simp only [List.length_map, List.length_take]
            exact Nat.min_eq_left hcmp
          rw [hmin, Nat.add_sub_cancel' (Nat.le_of_not_lt hj)]
          exact h
        · rw [List.getD_eq_default]
          · exact default_shadowFree
          · exact le_trans (Nat.le_of_lt (Nat.lt_of_not_le hcmp)) (Nat.le_add_right _ _)
      · exact h
  · unfold cleanAt freeRealLevel
    rw [patchesAt_setLevel, if_neg (fun hc => hlv hc.1)]
    exact h

theorem cleanAt_FreeMemory_mono (s : AMRState) (lv : Nat) (f1 f2 : Bool) (lv' j : Nat)
    (h : cleanAt s lv' j) :
    cleanAt (Par_LB_CollectParticle2OneLevel_FreeMemory s lv f1 f2) lv' j := by
  unfold Par_LB_CollectParticle2OneLevel_FreeMemory
  dsimp only
  have h1 : cleanAt (freeRealLevel s lv) lv' j := cleanAt_freeRealLevel_mono s lv lv' j h
  have h2 : cleanAt (if f1 = true then freePIDList (freeRealLevel s lv) lv (s.sibBuffList lv)
      else freeRealLevel s lv) lv' j := by
    split
    · exact cleanAt_freePIDList_mono _ _ _ _ _ h1
    · exact h1
  split
  · exact cleanAt_freePIDList_mono _ _ _ _ _ h2
  · exact h2

theorem cleanAt_FreeMemory_real (s : AMRState) (lv : Nat) (f1 f2 : Bool) (j : Nat)
    (h : j < s.nReal lv) :
    cleanAt (Par_LB_CollectParticle2OneLevel_FreeMemory s lv f1 f2) lv j := by
  unfold Par_LB_CollectParticle2OneLevel_FreeMemory
  dsimp only
  have h1 : cleanAt (freeRealLevel s lv) lv j := cleanAt_freeRealLevel_self s lv j h
  have h2 : cleanAt (if f1 = true then freePIDList (freeRealLevel s lv) lv (s.sibBuffList lv)
      else freeRealLevel s lv) lv j := by
    split
    · exact cleanAt_freePIDList_mono _ _ _ _ _ h1
    · exact h1
  split
  · exact cleanAt_freePIDList_mono _ _ _ _ _ h2
  · exact h2

theorem cleanAt_FreeMemory_sib (s : AMRState) (lv : Nat) (f2 : Bool) (j : Nat)
    (hm : j ∈ s.sibBuffList lv) :
    cleanAt (Par_LB_CollectParticle2OneLevel_FreeMemory s lv true f2) lv j := by
  unfold Par_LB_CollectParticle2OneLevel_FreeMemory
  dsimp only
  rw [if_pos rfl]
  have h2 : cleanAt (freePIDList (freeRealLevel s lv) lv (s.sibBuffList lv)) lv j :=
    cleanAt_freePIDList_mem _ _ _ _ hm
  split
  · exact cleanAt_freePIDList_mono _ _ _ _ _ h2
  · exact h2

theorem cleanAt_FreeMemory_fasib (s : AMRState) (lv : Nat) (f1 : Bool) (j : Nat)
    (hlv : 1 ≤ lv) (hm : j ∈ s.faSibBuffList lv) :
    cleanAt (Par_LB_CollectParticle2OneLevel_FreeMemory s lv f1 true) (lv - 1) j := by
  unfold Par_LB_CollectParticle2OneLevel_FreeMemory
  dsimp only
  rw [if_pos ⟨rfl, hlv⟩]
  exact cleanAt_freePIDList_mem _ _ _ _ hm

theorem cleanAt_getD_eq_getElem (s : AMRState) (lv j : Nat)
    (hj : j < (s.patchesAt lv).length) :
    (s.patchesAt lv).getD j default = (s.patchesAt lv)[j] :=
  List.getD_eq_getElem _ _ hj

theorem levelShadowFree_of_cleanAt (s : AMRState) (lv : Nat)
    (h : ∀ j, cleanAt s lv j) : levelShadowFree s lv = true := by
  unfold levelShadowFree
  rw [List.all_eq_true]
  intro p hp
  obtain ⟨j, hj, he⟩ := List.mem_iff_getElem.mp hp
  have hc := h j
  unfold cleanAt at hc
  rw [cleanAt_getD_eq_getElem s lv j hj, he] at hc
  exact decide_eq_true hc

theorem modAt_clear_noop (s : AMRState) (lv pid : Nat) (h : cleanAt s lv pid) :
    s.modAt lv pid clearShadow = s := by
  unfold AMRState.modAt AMRState.setLevel modPatch
  rw [clearShadow_eq_self h, set_self_getD]
  show { s with patches := s.patches.set lv (s.patches.getD lv []) } = s
  rw [set_self_getD]

theorem freePIDList_noop (lv : Nat) (pids : List Nat) :
    ∀ (s : AMRState), (∀ j ∈ pids, cleanAt s lv j) → freePIDList s lv pids = s := by
  induction pids with
  | nil => exact fun s _ => rfl
  | cons p rest ih =>
      intro s h
      rw [freePIDList_cons, modAt_clear_noop s lv p (h p (List.mem_cons_self p rest))]
      exact ih s (fun j hj => h j (List.mem_cons_of_mem p hj))

theorem freeRealLevel_noop (s : AMRState) (lv : Nat)
    (h : ∀ j, j < s.nReal lv → cleanAt s lv j) : freeRealLevel s lv = s := by
  unfold freeRealLevel AMRState.setLevel
  have hmap : ((s.patchesAt lv).take (s.nReal lv)).map clearShadow
      = (s.patchesAt lv).take (s.nReal lv) := by
    apply List.ext_getElem
    · simp
    · intro j h1 h2
      simp only [List.getElem_map]
      have hjn : j < s.nReal lv := by
        simp only [List.length_map, List.length_take, Nat.lt_min] at h1
        exact h1.1
      have hjl : j < (s.patchesAt lv).length := by
        simp only [List.length_take, Nat.lt_min] at h2
        exact h2.2
      have hc := h j hjn
      unfold cleanAt at hc
      rw [cleanAt_getD_eq_getElem s lv j hjl] at hc
      rw [List.getElem_take]
      exact clearShadow_eq_self hc
  rw [hmap, List.take_append_drop]
  show { s with patches := s.patches.set lv (s.patches.getD lv []) } = s
  rw [set_self_getD]

theorem FreeMemory_noop (s : AMRState) (lv : Nat) (f1 f2 : Bool)
    (hreal : ∀ j, j < s.nReal lv → cleanAt s lv j)
    (hsib : f1 = true → ∀ j ∈ s.sibBuffList lv, cleanAt s lv j)
    (hfa : f2 = true → 1 ≤ lv → ∀ j ∈ s.faSibBuffList lv, cleanAt s (lv - 1) j) :
    Par_LB_CollectParticle2OneLevel_FreeMemory s lv f1 f2 = s := by
  unfold Par_LB_CollectParticle2OneLevel_FreeMemory
  dsimp only
  rw [freeRealLevel_noop s lv hreal]
  have h2 : (if f1 = true then freePIDList s lv (s.sibBuffList lv) else s) = s := by
    split
    · rename_i hf1
      exact freePIDList_noop lv _ s (hsib hf1)
    · rfl
  rw [h2]
  split
  · rename_i hc
    exact freePIDList_noop _ _ s (hfa hc.1 hc.2)
  · rfl

theorem cleanAt_of_mem_clean {s : AMRState} {lv : Nat}
    (h : ∀ p ∈ s.patchesAt lv, shadowFree p) (j : Nat) : cleanAt s lv j := by
  unfold cleanAt
  by_cases hj : j < (s.patchesAt lv).length
  · rw [cleanAt_getD_eq_getElem s lv j hj]
    exact h _ (List.getElem_mem hj)
  · rw [List.getD_eq_default _ _ (Nat.le_of_not_lt hj)]
    exact default_shadowFree

theorem length_patchesAt_modAt (s : AMRState) (lv pid : Nat) (f : Patch → Patch) (lv' : Nat) :
    ((s.modAt lv pid f).patchesAt lv').length = (s.patchesAt lv').length := by
  rw [AMRState.modAt, patchesAt_setLevel]
  split
  · rename_i hc
    rw [hc.1]
    simp [modPatch]
  · rfl

theorem length_patchesAt_freeRealLevel (s : AMRState) (lv lv' : Nat) :
    ((freeRealLevel s lv).patchesAt lv').length = (s.patchesAt lv').length := by
  rw [freeRealLevel, patchesAt_setLevel]
  split
  · rename_i hc
    rw [hc.1]
    simp only [List.length_append, List.length_map, List.length_take, List.length_drop]
    omega
  · rfl

theorem length_patchesAt_freePIDList (lv : Nat) (pids : List Nat) :
    ∀ (s : AMRState) (lv' : Nat),
      ((freePIDList s lv pids).patchesAt lv').length = (s.patchesAt lv').length := by
  induction pids with
  | nil => exact fun _ _ => rfl
  | cons p rest ih =>
      intro s lv'
      rw [freePIDList_cons, ih, length_patchesAt_modAt]

theorem length_patchesAt_FreeMemory (s : AMRState) (lv : Nat) (f1 f2 : Bool) (lv' : Nat) :
    ((Par_LB_CollectParticle2OneLevel_FreeMemory s lv f1 f2).patchesAt lv').length
      = (s.patchesAt lv').length := by
  unfold Par_LB_CollectParticle2OneLevel_FreeMemory
  dsimp only
  have h2 : ((if f1 = true then freePIDList (freeRealLevel s lv) lv (s.sibBuffList lv)
      else freeRealLevel s lv).patchesAt lv').length = (s.patchesAt lv').length := by
    split
    · rw [length_patchesAt_freePIDList, length_patchesAt_freeRealLevel]
    · rw [length_patchesAt_freeRealLevel]
  split
  · rw [length_patchesAt_freePIDList]
    exact h2
  · exact h2

/-!  ## Claim theorems -/

/-- C8: for every state in which all patches at the target level (and the
selected father-sibling-buffer set at level-1) already have `NPar_Copy == -1`
and NULL `ParMassPos_Copy`, `Par_LB_CollectParticle2OneLevel_FreeMemory`
returns the state unchanged (every shadow count stays `-1`, every pointer
stays NULL, nothing else changes), and calling it twice in a row has the same
effect as calling it once. -/
theorem C8_release_noop_idempotent (s : AMRState) (lv : Nat) (f1 f2 : Bool)
    (hlv : ∀ p ∈ s.patchesAt lv, shadowFree p)
    (hfa : f2 = true → 1 ≤ lv → ∀ j ∈ s.faSibBuffList lv, cleanAt s (lv - 1) j) :
    Par_LB_CollectParticle2OneLevel_FreeMemory s lv f1 f2 = s ∧
    Par_LB_CollectParticle2OneLevel_FreeMemory
        (Par_LB_CollectParticle2OneLevel_FreeMemory s lv f1 f2) lv f1 f2
      = Par_LB_CollectParticle2OneLevel_FreeMemory s lv f1 f2 := by
  have h1 : Par_LB_CollectParticle2OneLevel_FreeMemory s lv f1 f2 = s :=
    FreeMemory_noop s lv f1 f2
      (fun j _ => cleanAt_of_mem_clean hlv j)
      (fun _ j _ => cleanAt_of_mem_clean hlv j) hfa
  refine ⟨h1, ?_⟩
  rw [h1]
  exact h1

theorem C8_release_witness :
    Par_LB_CollectParticle2OneLevel_FreeMemory cW 1 true true = cW ∧
    Par_LB_CollectParticle2OneLevel_FreeMemory
        (Par_LB_CollectParticle2OneLevel_FreeMemory cW 1 true true) 1 true true
      = Par_LB_CollectParticle2OneLevel_FreeMemory cW 1 true true :=
  C8_release_noop_idempotent cW 1 true true (by decide) (by decide)

/-- C9 (counterexample): as stated, the claim fails — with both buffer-release
flags false, a buffer patch at the target level holding stale shadow state is
released by nobody, so the diagnostic post-condition scan over all patches of
the target level does not hold after the call. -/
theorem C9_release_counterexample :
    FreeMemory_check
      (Par_LB_CollectParticle2OneLevel_FreeMemory cStaleBuffer 0 false false) 0 = false := by
  decide

/-- C9 (amended): after `Par_LB_CollectParticle2OneLevel_FreeMemory` returns,
the diagnostic post-condition scan over all real and buffer patches at the
target level and at level-1 finds no patch with non-NULL `ParMassPos_Copy` or
`NPar_Copy != -1`, provided every patch that was not already shadow-free is
covered by the released sets: at the target level it is a real patch or (with
`SibBufPatch` set) listed in the sibling-buffer list, and at level-1 it is
listed in the father-sibling-buffer list with `FaSibBufPatch` set. -/
theorem C9_release_postcondition (s : AMRState) (lv : Nat) (f1 f2 : Bool)
    (hcov : ∀ j, j < (s.patchesAt lv).length → ¬ cleanAt s lv j →
        j < s.nReal lv ∨ (f1 = true ∧ j ∈ s.sibBuffList lv))
    (hcovFa : 1 ≤ lv → ∀ j, j < (s.patchesAt (lv - 1)).length → ¬ cleanAt s (lv - 1) j →
        f2 = true ∧ j ∈ s.faSibBuffList lv) :
    FreeMemory_check (Par_LB_CollectParticle2OneLevel_FreeMemory s lv f1 f2) lv = true := by
  unfold FreeMemory_check
  rw [Bool.and_eq_true]
  constructor
  · apply levelShadowFree_of_cleanAt
    intro j
    by_cases hlen : j < (s.patchesAt lv).length
    · by_cases hc : cleanAt s lv j
      · exact cleanAt_FreeMemory_mono s lv f1 f2 lv j hc
      · rcases hcov j hlen hc with hreal | ⟨hf1, hm⟩
        · exact cleanAt_FreeMemory_real s lv f1 f2 j hreal
        · subst hf1
          exact cleanAt_FreeMemory_sib s lv f2 j hm
    · unfold cleanAt
      rw [List.getD_eq_default]
      · exact default_shadowFree
      · rw [length_patchesAt_FreeMemory]
        exact Nat.le_of_not_lt hlen
  · split
    · rename_i hlv1
      apply levelShadowFree_of_cleanAt
      intro j
      by_cases hlen : j < (s.patchesAt (lv - 1)).length
      · by_cases hc : cleanAt s (lv - 1) j
        · exact cleanAt_FreeMemory_mono s lv f1 f2 (lv - 1) j hc
        · obtain ⟨hf2, hm⟩ := hcovFa hlv1 j hlen hc
          subst hf2
          exact cleanAt_FreeMemory_fasib s lv f1 j hlv1 hm
      · unfold cleanAt
        rw [List.getD_eq_default]
        · exact default_shadowFree
        · rw [length_patchesAt_FreeMemory]
          exact Nat.le_of_not_lt hlen
    · rfl

theorem C9_release_witness :
    FreeMemory_check (Par_LB_CollectParticle2OneLevel_FreeMemory cDirty 1 false false) 1
      = true :=
  C9_release_postcondition cDirty 1 false false (by decide) (by decide)

/-- C10: for every target level strictly greater than the maximum refinement
level, `Par_LB_CollectParticle2OneLevel` returns immediately with the state
completely unchanged, for every combination of the `PredictPos`,
`SibBufPatch`, `FaSibBufPatch` and `JustCountNPar` flags. -/
theorem C10_above_max_noop (pred : R → Nat → R × R × R → R × R × R) (s : AMRState)
    (FaLv : Nat) (PredictPos : Bool) (TargetTime : R) (f1 f2 f3 : Bool)
    (h : s.maxLevel < FaLv) :
    Par_LB_CollectParticle2OneLevel pred s FaLv PredictPos TargetTime f1 f2 f3 = .ok s := by
  unfold Par_LB_CollectParticle2OneLevel
  rw [if_pos h]

theorem C10_above_max_witness :
    cW.maxLevel < 2 ∧
    Par_LB_CollectParticle2OneLevel (fun _ _ p => p) cW 2 true 0 true true false
      = .ok cW :=
  ⟨by decide, C10_above_max_noop (fun _ _ p => p) cW 2 true 0 true true false (by decide)⟩

/-!  ## Matching lemmas -/

theorem matchIdx_some_spec : ∀ (reals : List Patch) (k i : Nat),
    matchIdx reals k = some i → i < reals.length ∧ (reals.getD i default).LB_Idx = k := by
  intro reals
  induction reals with
  | nil => intro k i h; cases h
  | cons q rest ih =>
      intro k i h
      unfold matchIdx at h
      split at h
      · rename_i hq
        cases h
        exact ⟨Nat.succ_pos _, hq⟩
      · rcases Option.map_eq_some'.mp h with ⟨j, hj, rfl⟩
        obtain ⟨h1, h2⟩ := ih k j hj
        exact ⟨Nat.succ_lt_succ h1, h2⟩

theorem matchIdx_eq_some_of_distinct : ∀ (reals : List Patch) (k i : Nat),
    distinctKeys reals → i < reals.length → (reals.getD i default).LB_Idx = k →
    matchIdx reals k = some i := by
  intro reals
  induction reals with
  | nil => intro k i _ hi; exact absurd hi (by simp)
  | cons q rest ih =>
      intro k i hdist hi hk
      unfold matchIdx
      match i with
      | 0 =>
          rw [if_pos (show q.LB_Idx = k from hk)]
      | j + 1 =>
          have hjlen : j < rest.length := by simpa using hi
          have hkj : (rest.getD j default).LB_Idx = k := hk
          have hne : q.LB_Idx ≠ k := by
            have hmem : rest.getD j default ∈ rest := by
              rw [List.getD_eq_getElem _ _ hjlen]
              exact List.getElem_mem hjlen
            have := (List.pairwise_cons.mp hdist).1 _ hmem
            rw [hkj] at this
            exact this
          rw [if_neg hne, ih k j (List.pairwise_cons.mp hdist).2 hjlen hkj]
          rfl

/-!  ## Per-destination characterization of the reconciliation passes -/

theorem length_modPatch (l : List Patch) (pid : Nat) (f : Patch → Patch) :
    (modPatch l pid f).length = l.length := by
  simp [modPatch]

theorem length_accumRecs (rp : List (SendRec × Nat)) :
    ∀ (l : List Patch), (accumRecs rp l).length = l.length := by
  induction rp with
  | nil => exact fun _ => rfl
  | cons ri rest ih =>
      intro l
      show (accumRecs rest _).length = _
      rw [ih, length_modPatch]

theorem length_fillRecs (rp : List (SendRec × Nat)) :
    ∀ (l : List Patch), (fillRecs rp l).length = l.length := by
  induction rp with
  | nil => exact fun _ => rfl
  | cons ri rest ih =>
      intro l
      show (fillRecs rest _).length = _
      rw [ih, length_modPatch]

theorem length_seedNonLeaf (l : List Patch) : (seedNonLeaf l).length = l.length := by
  simp [seedNonLeaf]

theorem length_allocShadow (l : List Patch) : (allocShadow l).length = l.length := by
  simp [allocShadow]

theorem length_mergeResident (s : AMRState) (l : List Patch) :
    (mergeResident s l).length = l.length := by
  simp [mergeResident]

theorem rpSumAt_cons (ri : SendRec × Nat) (rest : List (SendRec × Nat)) (i : Nat) :
    rpSumAt (ri :: rest) i
      = (if ri.2 = i then (ri.1.nPar : Int) else 0) + rpSumAt rest i := by
  unfold rpSumAt
  by_cases h : ri.2 = i
  · rw [List.filter_cons_of_pos (by simpa using h)]
    simp [h]
  · rw [List.filter_cons_of_neg (by simpa using h)]
    simp [h]

theorem rpDataAt_cons (ri : SendRec × Nat) (rest : List (SendRec × Nat)) (i : Nat) :
    rpDataAt (ri :: rest) i
      = (if ri.2 = i then ri.1.data else []) ++ rpDataAt rest i := by
  unfold rpDataAt
  by_cases h : ri.2 = i
  · rw [List.filter_cons_of_pos (by simpa using h)]
    simp [h]
  · rw [List.filter_cons_of_neg (by simpa using h)]
    simp [h]

theorem rpSumAt_nonneg (rp : List (SendRec × Nat)) (i : Nat) : 0 ≤ rpSumAt rp i := by
  induction rp with
  | nil => simp [rpSumAt]
  | cons ri rest ih =>
      rw [rpSumAt_cons]
      have : (0 : Int) ≤ if ri.2 = i then (ri.1.nPar : Int) else 0 := by
        split
        · exact Int.natCast_nonneg _
        · exact le_refl 0
      omega

theorem getD_modPatch_self (l : List Patch) (pid : Nat) (f : Patch → Patch)
    (h : pid < l.length) :
    (modPatch l pid f).getD pid default = f (l.getD pid default) := by
  unfold modPatch
  exact getD_set_self _ _ _ _ h

theorem getD_modPatch_ne (l : List Patch) (pid j : Nat) (f : Patch → Patch)
    (h : pid ≠ j) :
    (modPatch l pid f).getD j default = l.getD j default := by
  unfold modPatch
  exact getD_set_ne _ _ _ _ _ h

theorem accumRecs_cons (ri : SendRec × Nat) (rest : List (SendRec × Nat)) (l : List Patch) :
    accumRecs (ri :: rest) l
      = accumRecs rest
          (modPatch l ri.2 (fun q => { q with NPar_Copy := q.NPar_Copy + (ri.1.nPar : Int) })) :=
  rfl

theorem accumRecs_spec (rp : List (SendRec × Nat)) :
    ∀ (l : List Patch) (i : Nat), i < l.length →
    ((accumRecs rp l).getD i default).NPar_Copy
        = (l.getD i default).NPar_Copy + rpSumAt rp i ∧
    ((accumRecs rp l).getD i default).ParMassPos_Copy
        = (l.getD i default).ParMassPos_Copy ∧
    clearShadow ((accumRecs rp l).getD i default) = clearShadow (l.getD i default) := by
  induction rp with
  | nil =>
      intro l i _
      refine ⟨?_, rfl, rfl⟩
      show (l.getD i default).NPar_Copy = (l.getD i default).NPar_Copy + 0
      omega
  | cons ri rest ih =>
      intro l i hi
      rw [accumRecs_cons]
      obtain ⟨ih1, ih2, ih3⟩ :=
        ih (modPatch l ri.2 (fun q => { q with NPar_Copy := q.NPar_Copy + (ri.1.nPar : Int) }))
          i (by rw [length_modPatch]; exact hi)
      rw [rpSumAt_cons]
      by_cases hj : ri.2 = i
      · subst hj
        rw [getD_modPatch_self l ri.2 _ hi] at ih1 ih2 ih3
        refine ⟨?_, ih2, ih3⟩
        rw [ih1, if_pos rfl]
        show (l.getD ri.2 default).NPar_Copy + (ri.1.nPar : Int) + rpSumAt rest ri.2 = _
        omega
      · rw [getD_modPatch_ne l ri.2 i _ hj] at ih1 ih2 ih3
        refine ⟨?_, ih2, ih3⟩
        rw [ih1, if_neg hj]
        omega

theorem fillRecs_cons (ri : SendRec × Nat) (rest : List (SendRec × Nat)) (l : List Patch) :
    fillRecs (ri :: rest) l
      = fillRecs rest
          (modPatch l ri.2 (fun q =>
            { q with NPar_Copy := q.NPar_Copy + (ri.1.nPar : Int),
                     ParMassPos_Copy := ri.1.data.foldl pushTuple q.ParMassPos_Copy })) :=
  rfl

theorem fillRecs_spec (rp : List (SendRec × Nat)) :
    ∀ (l : List Patch) (i : Nat), i < l.length →
    ((fillRecs rp l).getD i default).NPar_Copy
        = (l.getD i default).NPar_Copy + rpSumAt rp i ∧
    ((fillRecs rp l).getD i default).ParMassPos_Copy
        = pushList (rpDataAt rp i) (l.getD i default).ParMassPos_Copy ∧
    clearShadow ((fillRecs rp l).getD i default) = clearShadow (l.getD i default) := by
  induction rp with
  | nil =>
      intro l i _
      refine ⟨?_, rfl, rfl⟩
      show (l.getD i default).NPar_Copy = (l.getD i default).NPar_Copy + 0
      omega
  | cons ri rest ih =>
      intro l i hi
      rw [fillRecs_cons]
      obtain ⟨ih1, ih2, ih3⟩ :=
        ih (modPatch l ri.2 (fun q =>
              { q with NPar_Copy := q.NPar_Copy + (ri.1.nPar : Int),
                       ParMassPos_Copy := ri.1.data.foldl pushTuple q.ParMassPos_Copy }))
          i (by rw [length_modPatch]; exact hi)
      rw [rpSumAt_cons, rpDataAt_cons]
      by_cases hj : ri.2 = i
      · subst hj
        rw [getD_modPatch_self l ri.2 _ hi] at ih1 ih2 ih3
        refine ⟨?_, ?_, ih3⟩
        · rw [ih1, if_pos rfl]
          show (l.getD ri.2 default).NPar_Copy + (ri.1.nPar : Int) + rpSumAt rest ri.2 = _
          omega
        · rw [ih2, if_pos rfl]
          show pushList (rpDataAt rest ri.2)
              (pushList ri.1.data (l.getD ri.2 default).ParMassPos_Copy) = _
          rw [pushList, pushList, pushList, List.foldl_append]
      · rw [getD_modPatch_ne l ri.2 i _ hj] at ih1 ih2 ih3
        refine ⟨?_, ?_, ih3⟩
        · rw [ih1, if_neg hj]
          omega
        · rw [ih2, if_neg hj]
          rfl

theorem seedNonLeaf_getD (l : List Patch) (i : Nat) (hi : i < l.length) :
    (seedNonLeaf l).getD i default
      = if (l.getD i default).son = -1 then l.getD i default
        else { l.getD i default with NPar_Copy := ((l.getD i default).NPar : Int) } :=
  getD_map_lt _ l i default default hi

theorem allocShadow_getD (l : List Patch) (i : Nat) (hi : i < l.length) :
    (allocShadow l).getD i default
      = if 0 < (l.getD i default).NPar_Copy then
          { l.getD i default with
            ParMassPos_Copy := ⟨some [], some [], some [], some []⟩, NPar_Copy := 0 }
        else l.getD i default :=
  getD_map_lt _ l i default default hi

theorem mergeResident_getD (s : AMRState) (l : List Patch) (i : Nat) (hi : i < l.length) :
    (mergeResident s l).getD i default
      = if (l.getD i default).son ≠ -1 ∧ 0 < (l.getD i default).NPar then
          { l.getD i default with
            ParMassPos_Copy :=
              pushList ((patchParIDs (l.getD i default)).map (rawTuple s))
                (l.getD i default).ParMassPos_Copy,
            NPar_Copy := (l.getD i default).NPar_Copy + ((l.getD i default).NPar : Int) }
        else l.getD i default :=
  getD_map_lt _ l i default default hi

theorem pushTuple_null (t : R × R × R × R) : pushTuple ShadowPtrs.null t = ShadowPtrs.null :=
  rfl

theorem pushList_null (ts : List (R × R × R × R)) :
    pushList ts ShadowPtrs.null = ShadowPtrs.null := by
  induction ts with
  | nil => rfl
  | cons t rest ih =>
      show pushList rest (pushTuple ShadowPtrs.null t) = _
      rw [pushTuple_null, ih]

theorem pushList_append (xs ys : List (R × R × R × R)) (sp : ShadowPtrs) :
    pushList (xs ++ ys) sp = pushList ys (pushList xs sp) := by
  rw [pushList, pushList, pushList, List.foldl_append]

theorem pushList_some (ts : List (R × R × R × R)) :
    ∀ (a b c d : List R),
    pushList ts ⟨some a, some b, some c, some d⟩
      = ⟨some (a ++ ts.map (fun t => t.1)), some (b ++ ts.map (fun t => t.2.1)),
         some (c ++ ts.map (fun t => t.2.2.1)), some (d ++ ts.map (fun t => t.2.2.2))⟩ := by
  induction ts with
  | nil => intro a b c d; simp [pushList]
  | cons t rest ih =>
      intro a b c d
      show pushList rest (pushTuple _ t) = _
      rw [show pushTuple (⟨some a, some b, some c, some d⟩ : ShadowPtrs) t
            = ⟨some (a ++ [t.1]), some (b ++ [t.2.1]), some (c ++ [t.2.2.1]),
               some (d ++ [t.2.2.2])⟩ from rfl, ih]
      simp

theorem patch_eq_of_clear (p q : Patch) (h : clearShadow p = clearShadow q)
    (h1 : p.NPar_Copy = q.NPar_Copy) (h2 : p.ParMassPos_Copy = q.ParMassPos_Copy) :
    p = q := by
  cases p; cases q; simp_all [clearShadow]

theorem clear_son {p q : Patch} (h : clearShadow p = clearShadow q) : p.son = q.son := by
  have h2 := congrArg Patch.son h
  exact h2

theorem clear_NPar {p q : Patch} (h : clearShadow p = clearShadow q) : p.NPar = q.NPar := by
  have h2 := congrArg Patch.NPar h
  exact h2

theorem clear_ParList {p q : Patch} (h : clearShadow p = clearShadow q) :
    p.ParList = q.ParList := by
  have h2 := congrArg Patch.ParList h
  exact h2

theorem clear_parIDs {p q : Patch} (h : clearShadow p = clearShadow q) :
    patchParIDs p = patchParIDs q := by
  rw [patchParIDs, patchParIDs, clear_NPar h, clear_ParList h]

theorem rpFilter_nil_of_sum_zero (rp : List (SendRec × Nat)) (i : Nat)
    (hpos : ∀ ri ∈ rp, 0 < ri.1.nPar) (hz : rpSumAt rp i = 0) :
    rpSumAt rp i = 0 ∧ rpDataAt rp i = [] := by
  induction rp with
  | nil => exact ⟨hz, rfl⟩
  | cons ri rest ih =>
      rw [rpSumAt_cons] at hz
      have hrest : rpSumAt rest i = 0 ∧ rpDataAt rest i = [] := by
        apply ih (fun x hx => hpos x (List.mem_cons_of_mem _ hx))
        have := rpSumAt_nonneg rest i
        by_cases hj : ri.2 = i
        · rw [if_pos hj] at hz
          have := hpos ri (List.mem_cons_self _ _)
          omega
        · rw [if_neg hj] at hz
          omega
      by_cases hj : ri.2 = i
      · rw [if_pos hj] at hz
        have h1 := hpos ri (List.mem_cons_self _ _)
        have h2 := rpSumAt_nonneg rest i
        omega
      · rw [rpSumAt_cons, rpDataAt_cons, if_neg hj, if_neg hj]
        simpa using hrest

/-- Composite per-destination description of seed, accumulate, allocate, fill
and merge (source steps 3-2 to 4): a leaf destination is untouched, and a
non-leaf destination ends with `NPar_Copy = NPar + (matched receive total)`
and shadow arrays holding exactly the matched blocks followed by its own
resident particles (or still-NULL arrays when the total is zero). -/
theorem pipeline_spec (s : AMRState) (rp : List (SendRec × Nat)) (l : List Patch) (i : Nat)
    (hi : i < l.length)
    (hclean : shadowFree (l.getD i default))
    (hpos : ∀ ri ∈ rp, 0 < ri.1.nPar)
    (hsons : ∀ ri ∈ rp, (l.getD ri.2 default).son ≠ -1) :
    clearShadow ((mergeResident s (fillRecs rp (allocShadow (accumRecs rp
          (seedNonLeaf l))))).getD i default)
        = clearShadow (l.getD i default) ∧
    ((l.getD i default).son = -1 →
      (mergeResident s (fillRecs rp (allocShadow (accumRecs rp (seedNonLeaf l))))).getD i default
        = l.getD i default) ∧
    ((l.getD i default).son ≠ -1 →
      ((mergeResident s (fillRecs rp (allocShadow (accumRecs rp
            (seedNonLeaf l))))).getD i default).NPar_Copy
          = ((l.getD i default).NPar : Int) + rpSumAt rp i ∧
      ((((mergeResident s (fillRecs rp (allocShadow (accumRecs rp
              (seedNonLeaf l))))).getD i default).NPar_Copy = 0 ∧
        ((mergeResident s (fillRecs rp (allocShadow (accumRecs rp
              (seedNonLeaf l))))).getD i default).ParMassPos_Copy = ShadowPtrs.null) ∨
       ((mergeResident s (fillRecs rp (allocShadow (accumRecs rp
              (seedNonLeaf l))))).getD i default).ParMassPos_Copy
         = pushList (rpDataAt rp i
             ++ (if 0 < (l.getD i default).NPar then
                   (patchParIDs (l.getD i default)).map (rawTuple s) else []))
             emptyShadow)) := by
  have hi1 : i < (seedNonLeaf l).length := by rw [length_seedNonLeaf]; exact hi
  have hi2 : i < (accumRecs rp (seedNonLeaf l)).length := by
    rw [length_accumRecs]; exact hi1
  have hi3 : i < (allocShadow (accumRecs rp (seedNonLeaf l))).length := by
    rw [length_allocShadow]; exact hi2
  have hi4 : i < (fillRecs rp (allocShadow (accumRecs rp (seedNonLeaf l)))).length := by
    rw [length_fillRecs]; exact hi3
  have hp1 := seedNonLeaf_getD l i hi
  obtain ⟨h2N, h2S, h2C⟩ := accumRecs_spec rp (seedNonLeaf l) i hi1
  have hp3 := allocShadow_getD (accumRecs rp (seedNonLeaf l)) i hi2
  obtain ⟨h4N, h4S, h4C⟩ := fillRecs_spec rp (allocShadow (accumRecs rp (seedNonLeaf l))) i hi3
  have hp5 := mergeResident_getD s (fillRecs rp (allocShadow (accumRecs rp (seedNonLeaf l)))) i hi4
  obtain ⟨hcN, hcS⟩ := hclean
  have hSnn := rpSumAt_nonneg rp i
  by_cases hson : (l.getD i default).son = -1
  · -- leaf destination: every pass leaves the slot unchanged
    have hS0 : rpSumAt rp i = 0 ∧ rpDataAt rp i = [] := by
      have hfil : rp.filter (fun ri => ri.2 == i) = [] := by
        rw [List.filter_eq_nil_iff]
        intro ri hri hB
        have hji : ri.2 = i := by simpa using hB
        exact hsons ri hri (by rw [hji]; exact hson)
      constructor
      · rw [rpSumAt, hfil]; rfl
      · rw [rpDataAt, hfil]; rfl
    rw [if_pos hson] at hp1
    have e2 : (accumRecs rp (seedNonLeaf l)).getD i default = l.getD i default := by
      apply patch_eq_of_clear
      · rw [h2C, hp1]
      · rw [h2N, hp1, hS0.1, Int.add_zero]
      · rw [h2S, hp1]
    rw [e2] at hp3
    rw [if_neg (by rw [hcN]; decide)] at hp3
    have e4 : (fillRecs rp (allocShadow (accumRecs rp (seedNonLeaf l)))).getD i default
        = l.getD i default := by
      apply patch_eq_of_clear
      · rw [h4C, hp3]
      · rw [h4N, hp3, hS0.1, Int.add_zero]
      · rw [h4S, hp3, hS0.2]
        rfl
    rw [e4] at hp5
    rw [if_neg (by intro hcon; exact hcon.1 hson)] at hp5
    rw [hp5]
    refine ⟨rfl, fun _ => rfl, fun hcon => absurd hson hcon⟩
  · -- non-leaf destination
    rw [if_neg hson] at hp1
    -- facts after seeding
    have h1N : ((seedNonLeaf l).getD i default).NPar_Copy = ((l.getD i default).NPar : Int) := by
      rw [hp1]
    have h1S : ((seedNonLeaf l).getD i default).ParMassPos_Copy = ShadowPtrs.null := by
      rw [hp1]; exact hcS
    have h1C : clearShadow ((seedNonLeaf l).getD i default)
        = clearShadow (l.getD i default) := by
      rw [hp1]
      rfl
    rw [h1N] at h2N
    rw [h1S] at h2S
    rw [h1C] at h2C
    by_cases h0 : 0 < ((l.getD i default).NPar : Int) + rpSumAt rp i
    · -- allocation happens
      rw [if_pos (by rw [h2N]; exact h0)] at hp3
      have h3N : ((allocShadow (accumRecs rp (seedNonLeaf l))).getD i default).NPar_Copy
          = 0 := by rw [hp3]
      have h3S : ((allocShadow (accumRecs rp (seedNonLeaf l))).getD i default).ParMassPos_Copy
          = emptyShadow := by rw [hp3]; rfl
      have h3C : clearShadow ((allocShadow (accumRecs rp (seedNonLeaf l))).getD i default)
          = clearShadow (l.getD i default) := by rw [hp3, ← h2C]; rfl
      rw [h3N, Int.zero_add] at h4N
      rw [h3S] at h4S
      rw [h3C] at h4C
      by_cases hnp : 0 < (l.getD i default).NPar
      · -- resident particles appended by the merge pass
        have hcond : ((fillRecs rp (allocShadow (accumRecs rp
              (seedNonLeaf l)))).getD i default).son ≠ -1 ∧
            0 < ((fillRecs rp (allocShadow (accumRecs rp
              (seedNonLeaf l)))).getD i default).NPar := by
          constructor
          · rw [clear_son h4C]; exact hson
          · rw [clear_NPar h4C]; exact hnp
        rw [if_pos hcond] at hp5
        refine ⟨?_, fun hcon => absurd hcon hson, fun _ => ⟨?_, Or.inr ?_⟩⟩
        · rw [hp5]
          show clearShadow ((fillRecs rp (allocShadow (accumRecs rp
              (seedNonLeaf l)))).getD i default) = _
          rw [h4C]
        · rw [hp5]
          show ((fillRecs rp (allocShadow (accumRecs rp
              (seedNonLeaf l)))).getD i default).NPar_Copy
              + (((fillRecs rp (allocShadow (accumRecs rp
                (seedNonLeaf l)))).getD i default).NPar : Int) = _
          rw [h4N, clear_NPar h4C]
          omega
        · rw [hp5]
          show pushList ((patchParIDs ((fillRecs rp (allocShadow (accumRecs rp
                (seedNonLeaf l)))).getD i default)).map (rawTuple s))
              ((fillRecs rp (allocShadow (accumRecs rp
                (seedNonLeaf l)))).getD i default).ParMassPos_Copy = _
          rw [clear_parIDs h4C, h4S, if_pos hnp, pushList_append]
      · have hcond : ¬ (((fillRecs rp (allocShadow (accumRecs rp
              (seedNonLeaf l)))).getD i default).son ≠ -1 ∧
            0 < ((fillRecs rp (allocShadow (accumRecs rp
              (seedNonLeaf l)))).getD i default).NPar) := by
          intro hcon
          rw [clear_NPar h4C] at hcon
          exact hnp hcon.2
        rw [if_neg hcond] at hp5
        refine ⟨?_, fun hcon => absurd hcon hson, fun _ => ⟨?_, Or.inr ?_⟩⟩
        · rw [hp5, h4C]
        · rw [hp5, h4N]
          have : (l.getD i default).NPar = 0 := Nat.eq_zero_of_not_pos hnp
          rw [this]
          omega
        · rw [hp5, h4S, if_neg hnp, List.append_nil]
    · -- nothing to allocate: the slot total is zero and the arrays stay NULL
      have hz : ((l.getD i default).NPar : Int) + rpSumAt rp i = 0 := by omega
      rw [if_neg (by rw [h2N]; exact h0)] at hp3
      have h3N : ((allocShadow (accumRecs rp (seedNonLeaf l))).getD i default).NPar_Copy
          = 0 := by rw [hp3, h2N, hz]
      have h3S : ((allocShadow (accumRecs rp (seedNonLeaf l))).getD i default).ParMassPos_Copy
          = ShadowPtrs.null := by rw [hp3, h2S]
      have h3C : clearShadow ((allocShadow (accumRecs rp (seedNonLeaf l))).getD i default)
          = clearShadow (l.getD i default) := by rw [hp3, h2C]
      rw [h3N, Int.zero_add] at h4N
      rw [h3S, pushList_null] at h4S
      rw [h3C] at h4C
      have hS0 : rpSumAt rp i = 0 := by omega
      have hN0 : (l.getD i default).NPar = 0 := by omega
      have hcond : ¬ (((fillRecs rp (allocShadow (accumRecs rp
            (seedNonLeaf l)))).getD i default).son ≠ -1 ∧
          0 < ((fillRecs rp (allocShadow (accumRecs rp
            (seedNonLeaf l)))).getD i default).NPar) := by
        intro hcon
        rw [clear_NPar h4C, hN0] at hcon
        exact absurd hcon.2 (by decide)
      rw [if_neg hcond] at hp5
      refine ⟨?_, fun hcon => absurd hcon hson, fun _ => ⟨?_, Or.inl ⟨?_, ?_⟩⟩⟩
      · rw [hp5, h4C]
      · rw [hp5, h4N, hS0, hN0]
        simp
      · rw [hp5, h4N, hS0]
      · rw [hp5, h4S]


/-!  ## Inversion of a successful collection call -/

theorem collect_ok_main
    (pred : R → Nat → R × R × R → R × R × R) (s : AMRState) (FaLv : Nat)
    (PredictPos : Bool) (TT : R) (f1 f2 : Bool) (s' : AMRState)
    (hlt : FaLv < s.maxLevel)
    (h : Par_LB_CollectParticle2OneLevel pred s FaLv PredictPos TT f1 f2 false = .ok s') :
    cleanGuard s FaLv = true ∧
    srcLeafGuard s FaLv = true ∧
    matchGuard s (pred TT) FaLv PredictPos false = true ∧
    sonGuard s (pred TT) FaLv PredictPos false = true ∧
    posGuard s (pred TT) FaLv PredictPos = true ∧
    (PredictPos = false → boxGuard s (pred TT) FaLv PredictPos = true) ∧
    countGet (mainResult s (pred TT) FaLv PredictPos) = countExpected s FaLv ∧
    s' = collectBuffers (writeBack s FaLv (mainResult s (pred TT) FaLv PredictPos))
        (pred TT) FaLv PredictPos f1 f2 false := by
  unfold Par_LB_CollectParticle2OneLevel at h
  rw [if_neg (by omega : ¬ s.maxLevel < FaLv)] at h
  rw [if_neg (by simp : ¬ (false && PredictPos) = true)] at h
  rw [if_neg (by simp : ¬ (false && f1) = true)] at h
  rw [if_neg (by simp : ¬ (false && f2) = true)] at h
  by_cases hclean : (!cleanGuard s FaLv) = true
  · rw [if_pos hclean] at h
    exact Except.noConfusion h
  rw [if_neg hclean] at h
  rw [if_neg (by omega : ¬ FaLv = s.maxLevel)] at h
  by_cases hsrc : (!srcLeafGuard s FaLv) = true
  · rw [if_pos hsrc] at h
    exact Except.noConfusion h
  rw [if_neg hsrc] at h
  by_cases hpred : (PredictPos && !predTimeGuard s FaLv) = true
  · rw [if_pos hpred] at h
    exact Except.noConfusion h
  rw [if_neg hpred] at h
  by_cases hmatch : (!matchGuard s (pred TT) FaLv PredictPos false) = true
  · rw [if_pos hmatch] at h
    exact Except.noConfusion h
  rw [if_neg hmatch] at h
  by_cases hson : (!sonGuard s (pred TT) FaLv PredictPos false) = true
  · rw [if_pos hson] at h
    exact Except.noConfusion h
  rw [if_neg hson] at h
  rw [if_neg (by simp : ¬ false = true)] at h
  by_cases hpos : (!posGuard s (pred TT) FaLv PredictPos) = true
  · rw [if_pos hpos] at h
    exact Except.noConfusion h
  rw [if_neg hpos] at h
  by_cases halloc : (!allocGuard s (pred TT) FaLv PredictPos) = true
  · rw [if_pos halloc] at h
    exact Except.noConfusion h
  rw [if_neg halloc] at h
  by_cases hmass : (!massGuard s (pred TT) FaLv PredictPos) = true
  · rw [if_pos hmass] at h
    exact Except.noConfusion h
  rw [if_neg hmass] at h
  by_cases hbox : (!PredictPos && !boxGuard s (pred TT) FaLv PredictPos) = true
  · rw [if_pos hbox] at h
    exact Except.noConfusion h
  rw [if_neg hbox] at h
  by_cases hkdk : (!kdkGuard s FaLv) = true
  · rw [if_pos hkdk] at h
    exact Except.noConfusion h
  rw [if_neg hkdk] at h
  by_cases hcons : (countGet (mainResult s (pred TT) FaLv PredictPos)
      != countExpected s FaLv) = true
  · rw [if_pos hcons] at h
    exact Except.noConfusion h
  rw [if_neg hcons] at h
  refine ⟨by simpa using hclean, by simpa using hsrc, by simpa using hmatch,
          by simpa using hson, by simpa using hpos, ?_, by simpa using hcons, ?_⟩
  · intro hpp
    subst hpp
    simpa using hbox
  · have := Except.ok.inj h
    exact this.symm

theorem collect_ok_count
    (pred : R → Nat → R × R × R → R × R × R) (s : AMRState) (FaLv : Nat)
    (PredictPos : Bool) (TT : R) (f1 f2 : Bool) (s' : AMRState)
    (hlt : FaLv < s.maxLevel)
    (h : Par_LB_CollectParticle2OneLevel pred s FaLv PredictPos TT f1 f2 true = .ok s') :
    PredictPos = false ∧ f1 = false ∧ f2 = false ∧
    cleanGuard s FaLv = true ∧
    srcLeafGuard s FaLv = true ∧
    matchGuard s (pred TT) FaLv PredictPos true = true ∧
    sonGuard s (pred TT) FaLv PredictPos true = true ∧
    countGet (countResult s (pred TT) FaLv PredictPos true) = countExpected s FaLv ∧
    s' = writeBack s FaLv (countResult s (pred TT) FaLv PredictPos true) := by
  unfold Par_LB_CollectParticle2OneLevel at h
  rw [if_neg (by omega : ¬ s.maxLevel < FaLv)] at h
  by_cases hpp : (true && PredictPos) = true
  · rw [if_pos hpp] at h
    exact Except.noConfusion h
  rw [if_neg hpp] at h
  by_cases hf1 : (true && f1) = true
  · rw [if_pos hf1] at h
    exact Except.noConfusion h
  rw [if_neg hf1] at h
  by_cases hf2 : (true && f2) = true
  · rw [if_pos hf2] at h
    exact Except.noConfusion h
  rw [if_neg hf2] at h
  by_cases hclean : (!cleanGuard s FaLv) = true
  · rw [if_pos hclean] at h
    exact Except.noConfusion h
  rw [if_neg hclean] at h
  rw [if_neg (by omega : ¬ FaLv = s.maxLevel)] at h
  by_cases hsrc : (!srcLeafGuard s FaLv) = true
  · rw [if_pos hsrc] at h
    exact Except.noConfusion h
  rw [if_neg hsrc] at h
  by_cases hpred : (PredictPos && !predTimeGuard s FaLv) = true
  · rw [if_pos hpred] at h
    exact Except.noConfusion h
  rw [if_neg hpred] at h
  by_cases hmatch : (!matchGuard s (pred TT) FaLv PredictPos true) = true
  · rw [if_pos hmatch] at h
    exact Except.noConfusion h
  rw [if_neg hmatch] at h
  by_cases hson : (!sonGuard s (pred TT) FaLv PredictPos true) = true
  · rw [if_pos hson] at h
    exact Except.noConfusion h
  rw [if_neg hson] at h
  rw [if_pos rfl] at h
  by_cases hcons : (countGet (countResult s (pred TT) FaLv PredictPos true)
      != countExpected s FaLv) = true
  · rw [if_pos hcons] at h
    exact Except.noConfusion h
  rw [if_neg hcons] at h
  refine ⟨by simpa using hpp, by simpa using hf1, by simpa using hf2,
          by simpa using hclean, by simpa using hsrc, by simpa using hmatch,
          by simpa using hson, by simpa using hcons, (Except.ok.inj h).symm⟩

/-!  ## Reading the written-back level -/

theorem take_append_self {α : Type} : ∀ (l m : List α), (l ++ m).take l.length = l
  | [], _ => rfl
  | a :: t, m => congrArg (a :: ·) (take_append_self t m)

theorem take_of_length_le {α : Type} : ∀ (l : List α) (n : Nat), l.length ≤ n →
    l.take n = l
  | [], _, _ => by simp
  | a :: t, 0, h => absurd h (by simp)
  | a :: t, n + 1, h => congrArg (a :: ·) (take_of_length_le t n (by simpa using h))

theorem drop_of_length_le {α : Type} : ∀ (l : List α) (n : Nat), l.length ≤ n →
    l.drop n = []
  | [], _, _ => by simp
  | a :: t, 0, h => absurd h (by simp)
  | a :: t, n + 1, h => drop_of_length_le t n (by simpa using h)

theorem writeBack_eqExceptPatches (s : AMRState) (FaLv : Nat) (l : List Patch) :
    eqExceptPatches (writeBack s FaLv l) s := rfl

theorem nReal_writeBack (s : AMRState) (FaLv : Nat) (l : List Patch) (lv : Nat) :
    (writeBack s FaLv l).nReal lv = s.nReal lv := rfl

theorem patchesAt_writeBack_ne (s : AMRState) (FaLv : Nat) (l : List Patch) (lv' : Nat)
    (h : lv' ≠ FaLv) : (writeBack s FaLv l).patchesAt lv' = s.patchesAt lv' := by
  rw [writeBack, patchesAt_setLevel, if_neg (fun hc => h hc.1)]

theorem realAt_writeBack (s : AMRState) (FaLv : Nat) (l : List Patch)
    (hl : l.length = (s.realAt FaLv).length) :
    (writeBack s FaLv l).realAt FaLv = l := by
  have hr : (writeBack s FaLv l).realAt FaLv
      = ((writeBack s FaLv l).patchesAt FaLv).take (s.nReal FaLv) := rfl
  rw [hr, writeBack, patchesAt_setLevel]
  rw [AMRState.realAt, List.length_take] at hl
  split
  · by_cases hcmp : s.nReal FaLv ≤ (s.patchesAt FaLv).length
    · have hlen : l.length = s.nReal FaLv := by
        rw [hl]
        exact Nat.min_eq_left hcmp
      rw [← hlen, take_append_self]
    · have hlen : l.length = (s.patchesAt FaLv).length := by
        rw [hl]
        exact Nat.min_eq_right (Nat.le_of_lt (Nat.lt_of_not_le hcmp))
      rw [drop_of_length_le _ _ (Nat.le_of_lt (Nat.lt_of_not_le hcmp)),
          List.append_nil]
      exact take_of_length_le _ _ (by omega)
  · rename_i hc
    have hle : s.patches.length ≤ FaLv := by
      by_contra hlt
      exact hc ⟨rfl, Nat.lt_of_not_le hlt⟩
    have hnil : s.patchesAt FaLv = [] := by
      rw [AMRState.patchesAt]
      exact List.getD_eq_default _ _ hle
    rw [hnil] at hl
    simp only [List.length_nil, Nat.min_zero] at hl
    rw [hnil, List.eq_nil_of_length_eq_zero hl]
    simp

/-!  ## Frame lemmas for the buffer-patch collection -/

theorem foldl_level_frame {β : Type} (g : AMRState → β → AMRState) (lv' : Nat) :
    ∀ (xs : List β) (s : AMRState),
      (∀ st, ∀ x ∈ xs, (g st x).patchesAt lv' = st.patchesAt lv') →
      (xs.foldl g s).patchesAt lv' = s.patchesAt lv' := by
  intro xs
  induction xs with
  | nil => exact fun s _ => rfl
  | cons x rest ih =>
      intro s hg
      show (rest.foldl g (g s x)).patchesAt lv' = _
      rw [ih (g s x) (fun st y hy => hg st y (List.mem_cons_of_mem x hy)),
          hg s x (List.mem_cons_self x rest)]

theorem foldl_slot_frame {β : Type} (g : AMRState → β → AMRState) (lv' j : Nat) :
    ∀ (xs : List β) (s : AMRState),
      (∀ st, ∀ x ∈ xs,
        ((g st x).patchesAt lv').getD j default = (st.patchesAt lv').getD j default) →
      ((xs.foldl g s).patchesAt lv').getD j default
        = (s.patchesAt lv').getD j default := by
  intro xs
  induction xs with
  | nil => exact fun s _ => rfl
  | cons x rest ih =>
      intro s hg
      show ((rest.foldl g (g s x)).patchesAt lv').getD j default = _
      rw [ih (g s x) (fun st y hy => hg st y (List.mem_cons_of_mem x hy)),
          hg s x (List.mem_cons_self x rest)]

theorem foldl_clear_slot {β : Type} (g : AMRState → β → AMRState) (lv' j : Nat) :
    ∀ (xs : List β) (s : AMRState),
      (∀ st, ∀ x ∈ xs,
        clearShadow (((g st x).patchesAt lv').getD j default)
          = clearShadow ((st.patchesAt lv').getD j default)) →
      clearShadow (((xs.foldl g s).patchesAt lv').getD j default)
        = clearShadow ((s.patchesAt lv').getD j default) := by
  intro xs
  induction xs with
  | nil => exact fun s _ => rfl
  | cons x rest ih =>
      intro s hg
      show clearShadow (((rest.foldl g (g s x)).patchesAt lv').getD j default) = _
      rw [ih (g s x) (fun st y hy => hg st y (List.mem_cons_of_mem x hy)),
          hg s x (List.mem_cons_self x rest)]

theorem CFRP_patchesAt_ne (s : AMRState) (pred : Nat → R × R × R → R × R × R)
    (lv : Nat) (b r : List Nat) (pp : Bool) (lv' : Nat) (h : lv' ≠ lv) :
    (Par_LB_CollectParticleFromRealPatch s pred lv b r pp).patchesAt lv'
      = s.patchesAt lv' := by
  apply foldl_level_frame
  intro st x _
  show (st.setLevel lv _).patchesAt lv' = _
  rw [patchesAt_setLevel, if_neg (fun hc => h hc.1)]

theorem CFRP_getD_not_dst (s : AMRState) (pred : Nat → R × R × R → R × R × R)
    (lv : Nat) (b r : List Nat) (pp : Bool) (j : Nat) (hj : ∀ pid ∈ b, j ≠ pid) :
    ((Par_LB_CollectParticleFromRealPatch s pred lv b r pp).patchesAt lv).getD j default
      = (s.patchesAt lv).getD j default := by
  apply foldl_slot_frame
  intro st x hx
  rw [patchesAt_modAt_getD]
  obtain ⟨x1, x2⟩ := x
  have hx2 : x2 ∈ b := (List.of_mem_zip hx).2
  rw [if_neg (fun hc => hj x2 hx2 hc.2.1)]

theorem CFRP_clear_slot (s : AMRState) (pred : Nat → R × R × R → R × R × R)
    (lv : Nat) (b r : List Nat) (pp : Bool) (lv' j : Nat) :
    clearShadow (((Par_LB_CollectParticleFromRealPatch s pred lv b r pp).patchesAt lv').getD
        j default)
      = clearShadow ((s.patchesAt lv').getD j default) := by
  apply foldl_clear_slot
  intro st x _
  rw [patchesAt_modAt_getD]
  split
  · rename_i hc
    rw [hc.1, hc.2.1]
    rfl
  · rfl

theorem CFRP_eqExceptPatches (s : AMRState) (pred : Nat → R × R × R → R × R × R)
    (lv : Nat) (b r : List Nat) (pp : Bool) :
    eqExceptPatches (Par_LB_CollectParticleFromRealPatch s pred lv b r pp) s := by
  apply eqExceptPatches_foldl
  intro st x
  rfl

theorem collectBuffers_eqExceptPatches (s : AMRState)
    (pred : Nat → R × R × R → R × R × R) (FaLv : Nat) (pp b1 b2 jc : Bool) :
    eqExceptPatches (collectBuffers s pred FaLv pp b1 b2 jc) s := by
  unfold collectBuffers
  dsimp only
  have h1 : eqExceptPatches
      (if (b1 && !jc) = true then
        Par_LB_CollectParticleFromRealPatch s pred FaLv (s.sibBuffList FaLv)
          (s.sibRealList FaLv) pp
       else s) s := by
    split
    · exact CFRP_eqExceptPatches _ _ _ _ _ _
    · exact eqExceptPatches.refl s
  split
  · exact (CFRP_eqExceptPatches _ _ _ _ _ _).trans h1
  · exact h1

theorem collectBuffers_patchesAt_ne (s : AMRState)
    (pred : Nat → R × R × R → R × R × R) (FaLv : Nat) (pp b1 b2 jc : Bool)
    (lv' : Nat) (h1 : lv' ≠ FaLv) (h2 : lv' ≠ FaLv - 1) :
    (collectBuffers s pred FaLv pp b1 b2 jc).patchesAt lv' = s.patchesAt lv' := by
  unfold collectBuffers
  dsimp only
  have hs1 : (if (b1 && !jc) = true then
        Par_LB_CollectParticleFromRealPatch s pred FaLv (s.sibBuffList FaLv)
          (s.sibRealList FaLv) pp
       else s).patchesAt lv' = s.patchesAt lv' := by
    split
    · exact CFRP_patchesAt_ne _ _ _ _ _ _ _ h1
    · rfl
  split
  · rw [CFRP_patchesAt_ne _ _ _ _ _ _ _ h2, hs1]
  · exact hs1

theorem collectBuffers_clear_slot (s : AMRState)
    (pred : Nat → R × R × R → R × R × R) (FaLv : Nat) (pp b1 b2 jc : Bool)
    (lv' j : Nat) :
    clearShadow (((collectBuffers s pred FaLv pp b1 b2 jc).patchesAt lv').getD j default)
      = clearShadow ((s.patchesAt lv').getD j default) := by
  unfold collectBuffers
  dsimp only
  have hs1 : clearShadow (((if (b1 && !jc) = true then
        Par_LB_CollectParticleFromRealPatch s pred FaLv (s.sibBuffList FaLv)
          (s.sibRealList FaLv) pp
       else s).patchesAt lv').getD j default)
      = clearShadow ((s.patchesAt lv').getD j default) := by
    split
    · exact CFRP_clear_slot _ _ _ _ _ _ _ _
    · rfl
  split
  · rw [CFRP_clear_slot, hs1]
  · exact hs1

/-!  ## Decoding the guards -/

theorem cleanGuard_spec {s : AMRState} {FaLv : Nat} (h : cleanGuard s FaLv = true)
    (i : Nat) (hi : i < (s.realAt FaLv).length) :
    shadowFree ((s.realAt FaLv).getD i default) := by
  have := List.all_eq_true.mp h ((s.realAt FaLv).getD i default)
    (by rw [List.getD_eq_getElem _ _ hi]; exact List.getElem_mem hi)
  simpa using this

theorem posGuard_spec {s : AMRState} {pd : Nat → R × R × R → R × R × R} {FaLv : Nat}
    {pp : Bool} (h : posGuard s pd FaLv pp = true) :
    ∀ ri ∈ rpOf s pd FaLv pp false, 0 < ri.1.nPar := by
  intro ri hri
  have := List.all_eq_true.mp h ri hri
  simpa using this

theorem sonGuard_spec {s : AMRState} {pd : Nat → R × R × R → R × R × R} {FaLv : Nat}
    {pp jc : Bool} (h : sonGuard s pd FaLv pp jc = true) :
    ∀ ri ∈ rpOf s pd FaLv pp jc, ((s.realAt FaLv).getD ri.2 default).son ≠ -1 := by
  intro ri hri
  have := List.all_eq_true.mp h ri hri
  simpa using this

theorem matchGuard_spec {s : AMRState} {pd : Nat → R × R × R → R × R × R} {FaLv : Nat}
    {pp jc : Bool} (h : matchGuard s pd FaLv pp jc = true) :
    ∀ r ∈ mkRecs s pd FaLv pp jc, (matchIdx (s.realAt FaLv) r.key).isSome = true := by
  intro r hr
  exact List.all_eq_true.mp h r hr

theorem boxGuard_spec {s : AMRState} {pd : Nat → R × R × R → R × R × R} {FaLv : Nat}
    {pp : Bool} (h : boxGuard s pd FaLv pp = true) :
    ∀ ri ∈ rpOf s pd FaLv pp false, ∀ t ∈ ri.1.data,
      inPatchBox ((s.realAt FaLv).getD ri.2 default) t = true := by
  intro ri hri t ht
  exact List.all_eq_true.mp (List.all_eq_true.mp h ri hri) t ht

/-!  ## Matched routing versus ownership keys -/

theorem recvSum_cons (r : SendRec) (rest : List SendRec) (k : Nat) :
    recvSum (r :: rest) k
      = (if r.key = k then (r.nPar : Int) else 0) + recvSum rest k := by
  unfold recvSum
  by_cases h : r.key = k
  · rw [List.filter_cons_of_pos (by simpa using h)]
    simp [h]
  · rw [List.filter_cons_of_neg (by simpa using h)]
    simp [h]

theorem recsPid_cons (reals : List Patch) (r : SendRec) (rest : List SendRec) :
    recsPid reals (r :: rest)
      = ((matchIdx reals r.key).map (fun i => (r, i))).toList ++ recsPid reals rest := by
  unfold recsPid
  rw [List.filterMap_cons]
  cases hm : matchIdx reals r.key
  · simp [hm]
  · simp [hm]

theorem rpSumAt_recsPid (reals : List Patch) (i : Nat)
    (hdist : distinctKeys reals) (hi : i < reals.length) :
    ∀ (recs : List SendRec),
      (∀ r ∈ recs, (matchIdx reals r.key).isSome = true) →
      rpSumAt (recsPid reals recs) i = recvSum recs ((reals.getD i default).LB_Idx) := by
  intro recs
  induction recs with
  | nil => intro _; rfl
  | cons r rest ih =>
      intro hall
      have hhead := hall r (List.mem_cons_self r rest)
      obtain ⟨idx, hidx⟩ := Option.isSome_iff_exists.mp hhead
      rw [recsPid_cons, hidx]
      show rpSumAt ((r, idx) :: recsPid reals rest) i = _
      rw [rpSumAt_cons, recvSum_cons,
          ih (fun x hx => hall x (List.mem_cons_of_mem r hx))]
      have hiff : idx = i ↔ r.key = (reals.getD i default).LB_Idx := by
        constructor
        · intro he
          subst he
          exact (matchIdx_some_spec reals r.key idx hidx).2.symm
        · intro hk
          have := matchIdx_eq_some_of_distinct reals r.key i hdist hi hk.symm
          rw [hidx] at this
          exact Option.some.inj this
      by_cases he : idx = i
      · rw [if_pos he, if_pos (hiff.mp he)]
      · rw [if_neg he, if_neg (fun hc => he (hiff.mpr hc))]

theorem mem_rpDataAt {rp : List (SendRec × Nat)} {i : Nat} {t : R × R × R × R}
    (h : t ∈ rpDataAt rp i) : ∃ ri ∈ rp, ri.2 = i ∧ t ∈ ri.1.data := by
  unfold rpDataAt at h
  obtain ⟨d, hd, ht⟩ := List.mem_flatten.mp h
  obtain ⟨ri, hri, rfl⟩ := List.mem_map.mp hd
  obtain ⟨hmem, hkey⟩ := List.mem_filter.mp hri
  exact ⟨ri, hmem, by simpa using hkey, ht⟩

theorem mem_rpOf {s : AMRState} {pd : Nat → R × R × R → R × R × R} {FaLv : Nat}
    {pp jc : Bool} {ri : SendRec × Nat} (h : ri ∈ rpOf s pd FaLv pp jc) :
    ri.1 ∈ mkRecs s pd FaLv pp jc ∧ matchIdx (s.realAt FaLv) ri.1.key = some ri.2 := by
  unfold rpOf recsPid at h
  obtain ⟨r, hr, hmap⟩ := List.mem_filterMap.mp h
  cases hm : matchIdx (s.realAt FaLv) r.key
  · rw [hm] at hmap
    cases hmap
  · rw [hm] at hmap
    simp only [Option.map_some', Option.some.injEq] at hmap
    obtain ⟨rfl, rfl⟩ : r = ri.1 ∧ _ = ri.2 := by
      cases hmap
      exact ⟨rfl, rfl⟩
    exact ⟨hr, hm⟩

theorem mem_mkRecs {s : AMRState} {pd : Nat → R × R × R → R × R × R} {FaLv : Nat}
    {pp jc : Bool} {r : SendRec} (h : r ∈ mkRecs s pd FaLv pp jc) :
    ∃ lv p, (lv, p) ∈ srcPatches s FaLv ∧ p.NPar ≠ 0 ∧
      r.key = shiftKey FaLv lv p.LB_Idx ∧ r.nPar = p.NPar ∧
      r.data = (if jc then [] else (patchParIDs p).map (sentTuple s pd pp)) := by
  unfold mkRecs at h
  obtain ⟨lp, hlp, hmap⟩ := List.mem_filterMap.mp h
  by_cases hz : lp.2.NPar = 0
  · rw [if_pos hz] at hmap
    cases hmap
  · rw [if_neg hz] at hmap
    refine ⟨lp.1, lp.2, hlp, hz, ?_, ?_, ?_⟩
    · cases hmap; rfl
    · cases hmap; rfl
    · cases hmap; rfl

theorem mem_srcPatches {s : AMRState} {FaLv : Nat} {lp : Nat × Patch}
    (h : lp ∈ srcPatches s FaLv) :
    FaLv + 1 ≤ lp.1 ∧ lp.1 ≤ s.maxLevel ∧ lp.2 ∈ s.realAt lp.1 := by
  unfold srcPatches at h
  obtain ⟨lv, hlv, hp⟩ := List.mem_flatMap.mp h
  obtain ⟨p, hp2, rfl⟩ := List.mem_map.mp hp
  obtain ⟨i, hin, rfl⟩ := List.mem_range'.mp hlv
  exact ⟨by omega, by omega, hp2⟩

/-!  ## Recovering the written-back real-patch list from a successful call -/

theorem foldl_length_frame {β : Type} (g : AMRState → β → AMRState) (lv' : Nat) :
    ∀ (xs : List β) (s : AMRState),
      (∀ st, ∀ x ∈ xs, ((g st x).patchesAt lv').length = (st.patchesAt lv').length) →
      ((xs.foldl g s).patchesAt lv').length = (s.patchesAt lv').length := by
  intro xs
  induction xs with
  | nil => exact fun s _ => rfl
  | cons x rest ih =>
      intro s hg
      show ((rest.foldl g (g s x)).patchesAt lv').length = _
      rw [ih (g s x) (fun st y hy => hg st y (List.mem_cons_of_mem x hy)),
          hg s x (List.mem_cons_self x rest)]

theorem length_patchesAt_CFRP (s : AMRState) (pred : Nat → R × R × R → R × R × R)
    (lv : Nat) (b r : List Nat) (pp : Bool) (lv' : Nat) :
    ((Par_LB_CollectParticleFromRealPatch s pred lv b r pp).patchesAt lv').length
      = (s.patchesAt lv').length := by
  apply foldl_length_frame
  intro st x _
  exact length_patchesAt_modAt st lv x.2 _ lv'

theorem length_patchesAt_collectBuffers (s : AMRState)
    (pred : Nat → R × R × R → R × R × R) (FaLv : Nat) (pp b1 b2 jc : Bool) (lv' : Nat) :
    ((collectBuffers s pred FaLv pp b1 b2 jc).patchesAt lv').length
      = (s.patchesAt lv').length := by
  unfold collectBuffers
  dsimp only
  have h1 : ((if (b1 && !jc) = true then
      Par_LB_CollectParticleFromRealPatch s pred FaLv (s.sibBuffList FaLv)
        (s.sibRealList FaLv) pp
      else s).patchesAt lv').length = (s.patchesAt lv').length := by
    split
    · rw [length_patchesAt_CFRP]
    · rfl
  split
  · rw [length_patchesAt_CFRP]
    exact h1
  · exact h1

theorem collectBuffers_getD_real (s : AMRState)
    (pred : Nat → R × R × R → R × R × R) (FaLv : Nat) (pp b1 b2 jc : Bool) (j : Nat)
    (hbuf : ∀ pid ∈ s.sibBuffList FaLv, j ≠ pid) :
    ((collectBuffers s pred FaLv pp b1 b2 jc).patchesAt FaLv).getD j default
      = (s.patchesAt FaLv).getD j default := by
  unfold collectBuffers
  dsimp only
  have h1 : ((if (b1 && !jc) = true then
      Par_LB_CollectParticleFromRealPatch s pred FaLv (s.sibBuffList FaLv)
        (s.sibRealList FaLv) pp
      else s).patchesAt FaLv).getD j default
      = (s.patchesAt FaLv).getD j default := by
    split
    · exact CFRP_getD_not_dst _ _ _ _ _ _ _ hbuf
    · rfl
  split
  · rename_i hcond
    have h0 : 0 < FaLv := by
      simp only [Bool.and_eq_true, decide_eq_true_eq] at hcond
      exact hcond.1.2
    rw [show ∀ (t : AMRState),
        ((Par_LB_CollectParticleFromRealPatch t pred (FaLv - 1) (s.faSibBuffList FaLv)
          (s.faSibRealList FaLv) pp).patchesAt FaLv)
          = t.patchesAt FaLv from
        fun t => CFRP_patchesAt_ne t pred (FaLv - 1) _ _ pp FaLv (by omega)]
    exact h1
  · exact h1

theorem nReal_collectBuffers (s : AMRState) (pred : Nat → R × R × R → R × R × R)
    (FaLv : Nat) (pp b1 b2 jc : Bool) (lv : Nat) :
    (collectBuffers s pred FaLv pp b1 b2 jc).nReal lv = s.nReal lv :=
  (collectBuffers_eqExceptPatches s pred FaLv pp b1 b2 jc).nReal lv

theorem eq_of_getD : ∀ (l m : List Patch), l.length = m.length →
    (∀ j, j < l.length → l.getD j default = m.getD j default) → l = m
  | [], [], _, _ => rfl
  | [], b :: m, h, _ => by simp at h
  | a :: l, [], h, _ => by simp at h
  | a :: l, b :: m, h, hj => by
      have h0 : a = b := hj 0 (by simp)
      have hrest : l = m :=
        eq_of_getD l m (by simpa using h) (fun j hjl => hj (j + 1) (by simpa using hjl))
      rw [h0, hrest]

theorem getD_take {α : Type} : ∀ (l : List α) (n j : Nat) (d : α), j < n →
    (l.take n).getD j d = l.getD j d
  | [], _, _, _, _ => by simp
  | a :: t, 0, j, d, h => absurd h (by simp)
  | a :: t, n + 1, 0, d, _ => rfl
  | a :: t, n + 1, j + 1, d, h => getD_take t n j d (by simpa using h)

/-- In a successful full collection the real-patch list finally visible at
`FaLv` is exactly the written-back pipeline output (the buffer-patch
collection writes only to PIDs outside the real range, by the well-formedness
of the pairing lists). -/
theorem collect_realAt_eq (s : AMRState) (pred : Nat → R × R × R → R × R × R)
    (FaLv : Nat) (pp b1 b2 jc : Bool) (l : List Patch)
    (hbuf : ∀ pid ∈ s.sibBuffList FaLv, s.nReal FaLv ≤ pid)
    (hl : l.length = (s.realAt FaLv).length) :
    (collectBuffers (writeBack s FaLv l) pred FaLv pp b1 b2 jc).realAt FaLv = l := by
  have hwb := realAt_writeBack s FaLv l hl
  have hn : (collectBuffers (writeBack s FaLv l) pred FaLv pp b1 b2 jc).nReal FaLv
      = s.nReal FaLv := by
    rw [nReal_collectBuffers, nReal_writeBack]
  have hlen : ((collectBuffers (writeBack s FaLv l) pred FaLv pp b1 b2 jc).patchesAt
      FaLv).length = ((writeBack s FaLv l).patchesAt FaLv).length :=
    length_patchesAt_collectBuffers _ _ _ _ _ _ _ _
  have hlen2 : ((collectBuffers (writeBack s FaLv l) pred FaLv pp b1 b2 jc).realAt
      FaLv).length = l.length := by
    rw [AMRState.realAt, List.length_take, hn, hlen]
    have h3 : ((writeBack s FaLv l).realAt FaLv).length = l.length := by rw [hwb]
    rw [AMRState.realAt, List.length_take, nReal_writeBack] at h3
    rw [h3]
  apply eq_of_getD _ _ hlen2
  intro j hj
  have hjn : j < s.nReal FaLv := by
    rw [AMRState.realAt, List.length_take, hn] at hj
    exact (Nat.lt_min.mp hj).1
  have hbuf' : ∀ pid ∈ (writeBack s FaLv l).sibBuffList FaLv, j ≠ pid := by
    intro pid hpid
    have hmem : pid ∈ s.sibBuffList FaLv := by
      rwa [(writeBack_eqExceptPatches s FaLv l).sibBuffList FaLv] at hpid
    have := hbuf pid hmem
    omega
  rw [AMRState.realAt, getD_take _ _ _ _ (by rw [hn]; exact hjn),
      collectBuffers_getD_real _ _ _ _ _ _ _ _ hbuf']
  have hjl : j < l.length := by rw [hlen2] at hj; exact hj
  calc ((writeBack s FaLv l).patchesAt FaLv).getD j default
      = ((writeBack s FaLv l).realAt FaLv).getD j default := by
        rw [AMRState.realAt, getD_take _ _ _ _ (by rw [nReal_writeBack]; exact hjn)]
    _ = l.getD j default := by rw [hwb]

theorem length_mainResult (s : AMRState) (pd : Nat → R × R × R → R × R × R)
    (FaLv : Nat) (pp : Bool) :
    (mainResult s pd FaLv pp).length = (s.realAt FaLv).length := by
  unfold mainResult
  rw [length_mergeResident, length_fillRecs, length_allocShadow, length_accumRecs,
      length_seedNonLeaf]

theorem length_countResult (s : AMRState) (pd : Nat → R × R × R → R × R × R)
    (FaLv : Nat) (pp jc : Bool) :
    (countResult s pd FaLv pp jc).length = (s.realAt FaLv).length := by
  unfold countResult
  rw [length_accumRecs, length_seedNonLeaf]

theorem mainResult_spec (s : AMRState) (pd : Nat → R × R × R → R × R × R)
    (FaLv : Nat) (pp : Bool)
    (hclean : cleanGuard s FaLv = true)
    (hpos : posGuard s pd FaLv pp = true)
    (hson : sonGuard s pd FaLv pp false = true)
    (i : Nat) (hi : i < (s.realAt FaLv).length) :
    clearShadow ((mainResult s pd FaLv pp).getD i default)
        = clearShadow ((s.realAt FaLv).getD i default) ∧
    (((s.realAt FaLv).getD i default).son = -1 →
      (mainResult s pd FaLv pp).getD i default = (s.realAt FaLv).getD i default) ∧
    (((s.realAt FaLv).getD i default).son ≠ -1 →
      ((mainResult s pd FaLv pp).getD i default).NPar_Copy
          = (((s.realAt FaLv).getD i default).NPar : Int)
            + rpSumAt (rpOf s pd FaLv pp false) i ∧
      ((((mainResult s pd FaLv pp).getD i default).NPar_Copy = 0 ∧
        ((mainResult s pd FaLv pp).getD i default).ParMassPos_Copy = ShadowPtrs.null) ∨
       ((mainResult s pd FaLv pp).getD i default).ParMassPos_Copy
         = pushList (rpDataAt (rpOf s pd FaLv pp false) i
             ++ (if 0 < ((s.realAt FaLv).getD i default).NPar then
                   (patchParIDs ((s.realAt FaLv).getD i default)).map (rawTuple s) else []))
             emptyShadow)) :=
  pipeline_spec s (rpOf s pd FaLv pp false) (s.realAt FaLv) i hi
    (cleanGuard_spec hclean i hi) (posGuard_spec hpos) (sonGuard_spec hson)


theorem clear_LB {p q : Patch} (h : clearShadow p = clearShadow q) :
    p.LB_Idx = q.LB_Idx := by
  have h2 := congrArg Patch.LB_Idx h
  exact h2

/-- C1: after a successful full collection (`JustCountNPar = false`) with the
target level strictly below the maximum level, every non-leaf real patch at
the target level ends with `NPar_Copy` equal to its own resident in-transit
count `NPar` plus the total particle count of the received records whose
ownership key matches its `LB_Idx`, while every leaf real patch keeps
`NPar_Copy = -1` and all four `ParMassPos_Copy` pointers NULL. -/
theorem C1_shadow_count_after_collect
    (pred : R → Nat → R × R × R → R × R × R) (s : AMRState) (FaLv : Nat)
    (PredictPos : Bool) (TT : R) (f1 f2 : Bool) (s' : AMRState)
    (hlt : FaLv < s.maxLevel)
    (hdist : distinctKeys (s.realAt FaLv))
    (hbuf : ∀ pid ∈ s.sibBuffList FaLv, s.nReal FaLv ≤ pid)
    (h : Par_LB_CollectParticle2OneLevel pred s FaLv PredictPos TT f1 f2 false = .ok s') :
    ∀ i, i < (s'.realAt FaLv).length →
      (((s'.realAt FaLv).getD i default).son ≠ -1 →
        ((s'.realAt FaLv).getD i default).NPar_Copy
          = (((s'.realAt FaLv).getD i default).NPar : Int)
            + recvSum (mkRecs s (pred TT) FaLv PredictPos false)
                (((s'.realAt FaLv).getD i default).LB_Idx)) ∧
      (((s'.realAt FaLv).getD i default).son = -1 →
        ((s'.realAt FaLv).getD i default).NPar_Copy = -1 ∧
        ((s'.realAt FaLv).getD i default).ParMassPos_Copy = ShadowPtrs.null) := by
  obtain ⟨hclean, hsrcg, hmatch, hson, hpos, hbox, hcons, hs'⟩ :=
    collect_ok_main pred s FaLv PredictPos TT f1 f2 s' hlt h
  have hre : s'.realAt FaLv = mainResult s (pred TT) FaLv PredictPos := by
    rw [hs']
    exact collect_realAt_eq s (pred TT) FaLv PredictPos f1 f2 false _ hbuf
      (length_mainResult s (pred TT) FaLv PredictPos)
  intro i hi
  have hi0 : i < (s.realAt FaLv).length := by
    rw [hre, length_mainResult] at hi
    exact hi
  obtain ⟨hC, hleaf, hnl⟩ :=
    mainResult_spec s (pred TT) FaLv PredictPos hclean hpos hson i hi0
  constructor
  · intro hson'
    rw [hre] at hson' ⊢
    have hs0 : ((s.realAt FaLv).getD i default).son ≠ -1 := by
      rw [← clear_son hC]
      exact hson'
    obtain ⟨hN, _⟩ := hnl hs0
    rw [hN, clear_NPar hC, clear_LB hC]
    have := rpSumAt_recsPid (s.realAt FaLv) i hdist hi0
      (mkRecs s (pred TT) FaLv PredictPos false) (matchGuard_spec hmatch)
    rw [show rpSumAt (rpOf s (pred TT) FaLv PredictPos false) i
        = rpSumAt (recsPid (s.realAt FaLv) (mkRecs s (pred TT) FaLv PredictPos false)) i
        from rfl, this]
  · intro hleaf'
    rw [hre] at hleaf' ⊢
    have hs0 : ((s.realAt FaLv).getD i default).son = -1 := by
      rw [← clear_son hC]
      exact hleaf'
    rw [hleaf hs0]
    exact cleanGuard_spec hclean i hi0

theorem C1_shadow_count_witness :
    (0 : Nat) < cC.maxLevel ∧ distinctKeys (cC.realAt 0) ∧
    (∀ pid ∈ cC.sibBuffList 0, cC.nReal 0 ≤ pid) ∧
    Par_LB_CollectParticle2OneLevel predId cC 0 false 0 false false false
      = .ok (writeBack cC 0 (mainResult cC (predId 0) 0 false)) ∧
    (∀ i, i < ((writeBack cC 0 (mainResult cC (predId 0) 0 false)).realAt 0).length →
      ((((writeBack cC 0 (mainResult cC (predId 0) 0 false)).realAt 0).getD i default).son ≠ -1 →
        (((writeBack cC 0 (mainResult cC (predId 0) 0 false)).realAt 0).getD i default).NPar_Copy
          = ((((writeBack cC 0 (mainResult cC (predId 0) 0 false)).realAt 0).getD i default).NPar : Int)
            + recvSum (mkRecs cC (predId 0) 0 false false)
                ((((writeBack cC 0 (mainResult cC (predId 0) 0 false)).realAt 0).getD i default).LB_Idx)) ∧
      ((((writeBack cC 0 (mainResult cC (predId 0) 0 false)).realAt 0).getD i default).son = -1 →
        (((writeBack cC 0 (mainResult cC (predId 0) 0 false)).realAt 0).getD i default).NPar_Copy = -1 ∧
        (((writeBack cC 0 (mainResult cC (predId 0) 0 false)).realAt 0).getD i default).ParMassPos_Copy
          = ShadowPtrs.null)) :=
  ⟨by decide, by decide, by decide, rfl,
   C1_shadow_count_after_collect predId cC 0 false 0 false false
     (writeBack cC 0 (mainResult cC (predId 0) 0 false))
     (by decide) (by decide) (by decide) rfl⟩

/-!  ## Count-only mode versus the full pipeline -/

theorem mkRecs_strip (s : AMRState) (pd : Nat → R × R × R → R × R × R)
    (FaLv : Nat) (pp : Bool) :
    mkRecs s pd FaLv pp true
      = (mkRecs s pd FaLv pp false).map (fun r => ⟨r.key, r.nPar, []⟩) := by
  unfold mkRecs
  rw [List.map_filterMap]
  apply List.filterMap_congr
  intro lp _
  by_cases hz : lp.2.NPar = 0
  · rw [if_pos hz, if_pos hz]
    rfl
  · rw [if_neg hz, if_neg hz]
    rfl

theorem recsPid_strip (reals : List Patch) (recs : List SendRec) :
    recsPid reals (recs.map (fun r => ⟨r.key, r.nPar, []⟩))
      = (recsPid reals recs).map (fun ri => (⟨ri.1.key, ri.1.nPar, []⟩, ri.2)) := by
  unfold recsPid
  rw [List.filterMap_map, List.map_filterMap]
  apply List.filterMap_congr
  intro r _
  show (matchIdx reals r.key).map _ = ((matchIdx reals r.key).map _).map _
  cases matchIdx reals r.key
  · rfl
  · rfl

theorem rpSumAt_strip (i : Nat) : ∀ (rp : List (SendRec × Nat)),
    rpSumAt (rp.map (fun ri => (⟨ri.1.key, ri.1.nPar, []⟩, ri.2))) i = rpSumAt rp i := by
  intro rp
  induction rp with
  | nil => rfl
  | cons ri rest ih =>
      show rpSumAt ((⟨ri.1.key, ri.1.nPar, []⟩, ri.2) :: _) i = _
      rw [rpSumAt_cons, rpSumAt_cons, ih]

theorem rpSumAt_count_eq_full (s : AMRState) (pd : Nat → R × R × R → R × R × R)
    (FaLv : Nat) (pp : Bool) (i : Nat) :
    rpSumAt (rpOf s pd FaLv pp true) i = rpSumAt (rpOf s pd FaLv pp false) i := by
  unfold rpOf
  rw [mkRecs_strip, recsPid_strip, rpSumAt_strip]

theorem rpSumAt_of_leaf (rp : List (SendRec × Nat)) (reals : List Patch) (i : Nat)
    (hsons : ∀ ri ∈ rp, (reals.getD ri.2 default).son ≠ -1)
    (hleaf : (reals.getD i default).son = -1) :
    rpSumAt rp i = 0 := by
  have hfil : rp.filter (fun ri => ri.2 == i) = [] := by
    rw [List.filter_eq_nil_iff]
    intro ri hri hB
    have hji : ri.2 = i := by simpa using hB
    exact hsons ri hri (by rw [hji]; exact hleaf)
  rw [rpSumAt, hfil]
  rfl

theorem countResult_spec (s : AMRState) (pd : Nat → R × R × R → R × R × R)
    (FaLv : Nat) (pp jc : Bool)
    (hclean : cleanGuard s FaLv = true)
    (hson : sonGuard s pd FaLv pp jc = true)
    (i : Nat) (hi : i < (s.realAt FaLv).length) :
    ((countResult s pd FaLv pp jc).getD i default).NPar_Copy
      = (if ((s.realAt FaLv).getD i default).son = -1 then -1
         else (((s.realAt FaLv).getD i default).NPar : Int)
              + rpSumAt (rpOf s pd FaLv pp jc) i) ∧
    ((countResult s pd FaLv pp jc).getD i default).ParMassPos_Copy = ShadowPtrs.null ∧
    clearShadow ((countResult s pd FaLv pp jc).getD i default)
      = clearShadow ((s.realAt FaLv).getD i default) := by
  have hi1 : i < (seedNonLeaf (s.realAt FaLv)).length := by
    rw [length_seedNonLeaf]; exact hi
  obtain ⟨h2N, h2S, h2C⟩ := accumRecs_spec (rpOf s pd FaLv pp jc) (seedNonLeaf (s.realAt FaLv)) i hi1
  have hp1 := seedNonLeaf_getD (s.realAt FaLv) i hi
  obtain ⟨hcN, hcS⟩ := cleanGuard_spec hclean i hi
  by_cases hson' : ((s.realAt FaLv).getD i default).son = -1
  · rw [if_pos hson'] at hp1
    refine ⟨?_, ?_, ?_⟩
    · rw [if_pos hson']
      show ((accumRecs _ _).getD i default).NPar_Copy = -1
      rw [h2N, hp1, hcN,
          rpSumAt_of_leaf _ (s.realAt FaLv) i (sonGuard_spec hson) hson']
      rfl
    · show ((accumRecs _ _).getD i default).ParMassPos_Copy = _
      rw [h2S, hp1, hcS]
    · show clearShadow ((accumRecs _ _).getD i default) = _
      rw [h2C, hp1]
  · rw [if_neg hson'] at hp1
    refine ⟨?_, ?_, ?_⟩
    · rw [if_neg hson']
      show ((accumRecs _ _).getD i default).NPar_Copy = _
      rw [h2N, hp1]
    · show ((accumRecs _ _).getD i default).ParMassPos_Copy = _
      rw [h2S, hp1]
      exact hcS
    · show clearShadow ((accumRecs _ _).getD i default) = _
      rw [h2C, hp1]
      rfl

/-- C3: a successful `JustCountNPar = true` run produces, for every real patch
at the target level, exactly the same final `NPar_Copy` as a successful
`JustCountNPar = false` run (with `PredictPos = false`) from the same initial
state, and the count-only run leaves every real target-level patch's four
`ParMassPos_Copy` pointers NULL. -/
theorem C3_count_only_equivalence
    (pred : R → Nat → R × R × R → R × R × R) (s : AMRState) (FaLv : Nat)
    (pp1 : Bool) (TT : R) (g1 g2 f1 f2 : Bool) (s1 s2 : AMRState)
    (hlt : FaLv < s.maxLevel)
    (hbuf : ∀ pid ∈ s.sibBuffList FaLv, s.nReal FaLv ≤ pid)
    (h1 : Par_LB_CollectParticle2OneLevel pred s FaLv pp1 TT g1 g2 true = .ok s1)
    (h2 : Par_LB_CollectParticle2OneLevel pred s FaLv false TT f1 f2 false = .ok s2) :
    ∀ i, i < (s1.realAt FaLv).length →
      ((s1.realAt FaLv).getD i default).NPar_Copy
        = ((s2.realAt FaLv).getD i default).NPar_Copy ∧
      ((s1.realAt FaLv).getD i default).ParMassPos_Copy = ShadowPtrs.null := by
  obtain ⟨hpp1, hg1, hg2, hclean1, hsrc1, hmatch1, hson1, hcons1, hs1⟩ :=
    collect_ok_count pred s FaLv pp1 TT g1 g2 s1 hlt h1
  subst hpp1
  obtain ⟨hclean, hsrcg, hmatch, hson, hpos, hbox, hcons, hs2⟩ :=
    collect_ok_main pred s FaLv false TT f1 f2 s2 hlt h2
  have hre1 : s1.realAt FaLv = countResult s (pred TT) FaLv false true := by
    rw [hs1]
    exact realAt_writeBack s FaLv _ (length_countResult s (pred TT) FaLv false true)
  have hre2 : s2.realAt FaLv = mainResult s (pred TT) FaLv false := by
    rw [hs2]
    exact collect_realAt_eq s (pred TT) FaLv false f1 f2 false _ hbuf
      (length_mainResult s (pred TT) FaLv false)
  intro i hi
  have hi0 : i < (s.realAt FaLv).length := by
    rw [hre1, length_countResult] at hi
    exact hi
  obtain ⟨hcnN, hcnS, _⟩ :=
    countResult_spec s (pred TT) FaLv false true hclean1 hson1 i hi0
  obtain ⟨hC, hleaf, hnl⟩ := mainResult_spec s (pred TT) FaLv false hclean hpos hson i hi0
  refine ⟨?_, by rw [hre1]; exact hcnS⟩
  rw [hre1, hre2, hcnN]
  by_cases hs0 : ((s.realAt FaLv).getD i default).son = -1
  · rw [if_pos hs0, hleaf hs0]
    exact ((cleanGuard_spec hclean i hi0).1).symm
  · rw [if_neg hs0, (hnl hs0).1, rpSumAt_count_eq_full]

theorem C3_count_only_witness :
    (0 : Nat) < cC.maxLevel ∧
    (∀ pid ∈ cC.sibBuffList 0, cC.nReal 0 ≤ pid) ∧
    Par_LB_CollectParticle2OneLevel predId cC 0 false 0 false false true
      = .ok (writeBack cC 0 (countResult cC (predId 0) 0 false true)) ∧
    Par_LB_CollectParticle2OneLevel predId cC 0 false 0 false false false
      = .ok (writeBack cC 0 (mainResult cC (predId 0) 0 false)) ∧
    (∀ i, i < (((writeBack cC 0 (countResult cC (predId 0) 0 false true))).realAt 0).length →
      (((writeBack cC 0 (countResult cC (predId 0) 0 false true)).realAt 0).getD i default).NPar_Copy
        = (((writeBack cC 0 (mainResult cC (predId 0) 0 false)).realAt 0).getD i default).NPar_Copy ∧
      (((writeBack cC 0 (countResult cC (predId 0) 0 false true)).realAt 0).getD i default).ParMassPos_Copy
        = ShadowPtrs.null) :=
  ⟨by decide, by decide, rfl, rfl,
   C3_count_only_equivalence predId cC 0 false 0 false false false false
     (writeBack cC 0 (countResult cC (predId 0) 0 false true))
     (writeBack cC 0 (mainResult cC (predId 0) 0 false))
     (by decide) (by decide) rfl rfl⟩

/-!  ## Frame property of one collection call -/

theorem writeBack_clear_slot (s : AMRState) (FaLv : Nat) (l : List Patch)
    (hl : l.length = (s.realAt FaLv).length)
    (hcl : ∀ j, j < l.length →
      clearShadow (l.getD j default) = clearShadow ((s.realAt FaLv).getD j default))
    (lv' j : Nat) :
    clearShadow (((writeBack s FaLv l).patchesAt lv').getD j default)
      = clearShadow ((s.patchesAt lv').getD j default) := by
  by_cases hlv : lv' = FaLv
  · subst hlv
    rw [writeBack, patchesAt_setLevel]
    split
    · by_cases hj : j < l.length
      · rw [getD_append_left _ _ _ _ hj, hcl j hj]
        have hjn : j < s.nReal lv' := by
          rw [hl, AMRState.realAt, List.length_take] at hj
          exact (Nat.lt_min.mp hj).1
        rw [AMRState.realAt, getD_take _ _ _ _ hjn]
      · rw [getD_append_right _ _ _ _ (Nat.le_of_not_lt hj), getD_drop]
        have hll : l.length = min (s.nReal lv') (s.patchesAt lv').length := by
          rw [hl, AMRState.realAt, List.length_take]
        by_cases hcmp : s.nReal lv' ≤ (s.patchesAt lv').length
        · have : s.nReal lv' + (j - l.length) = j := by
            rw [hll, Nat.min_eq_left hcmp]
            rw [hll, Nat.min_eq_left hcmp] at hj
            omega
          rw [this]
        · rw [List.getD_eq_default _ _ (by omega), List.getD_eq_default _ _ (by
            rw [hll, Nat.min_eq_right (by omega)] at hj
            omega)]
    · rfl
  · rw [patchesAt_writeBack_ne _ _ _ _ hlv]

theorem collect_ok_max
    (pred : R → Nat → R × R × R → R × R × R) (s : AMRState) (FaLv : Nat)
    (pp : Bool) (TT : R) (f1 f2 jc : Bool) (s' : AMRState)
    (heq : FaLv = s.maxLevel)
    (h : Par_LB_CollectParticle2OneLevel pred s FaLv pp TT f1 f2 jc = .ok s') :
    s' = collectBuffers s (pred TT) FaLv pp f1 f2 jc := by
  unfold Par_LB_CollectParticle2OneLevel at h
  rw [if_neg (by omega : ¬ s.maxLevel < FaLv)] at h
  by_cases h1 : (jc && pp) = true
  · rw [if_pos h1] at h
    exact Except.noConfusion h
  rw [if_neg h1] at h
  by_cases h2 : (jc && f1) = true
  · rw [if_pos h2] at h
    exact Except.noConfusion h
  rw [if_neg h2] at h
  by_cases h3 : (jc && f2) = true
  · rw [if_pos h3] at h
    exact Except.noConfusion h
  rw [if_neg h3] at h
  by_cases h4 : (!cleanGuard s FaLv) = true
  · rw [if_pos h4] at h
    exact Except.noConfusion h
  rw [if_neg h4] at h
  rw [if_pos heq] at h
  exact (Except.ok.inj h).symm

/-- C5: a successful collection call never mutates any patch at a level finer
than the target level (in particular `NPar` and `ParList` are untouched
there), and at every patch of every level it only writes the shadow fields
`NPar_Copy` and `ParMassPos_Copy` (all other patch fields are preserved). -/
theorem C5_no_mutation_of_finer_levels
    (pred : R → Nat → R × R × R → R × R × R) (s : AMRState) (FaLv : Nat)
    (PredictPos : Bool) (TT : R) (f1 f2 jc : Bool) (s' : AMRState)
    (h : Par_LB_CollectParticle2OneLevel pred s FaLv PredictPos TT f1 f2 jc = .ok s') :
    (∀ lv, FaLv < lv → s'.patchesAt lv = s.patchesAt lv) ∧
    (∀ lv, FaLv < lv → ∀ j,
      ((s'.patchesAt lv).getD j default).NPar = ((s.patchesAt lv).getD j default).NPar ∧
      ((s'.patchesAt lv).getD j default).ParList
        = ((s.patchesAt lv).getD j default).ParList) ∧
    (∀ lv j, clearShadow ((s'.patchesAt lv).getD j default)
        = clearShadow ((s.patchesAt lv).getD j default)) := by
  have main : (∀ lv, FaLv < lv → s'.patchesAt lv = s.patchesAt lv) ∧
      (∀ lv j, clearShadow ((s'.patchesAt lv).getD j default)
        = clearShadow ((s.patchesAt lv).getD j default)) := by
    rcases Nat.lt_trichotomy FaLv s.maxLevel with hlt | heq | hgt
    · by_cases hjc : jc = true
      · subst hjc
        obtain ⟨hpp1, hg1, hg2, hclean1, hsrc1, hmatch1, hson1, hcons1, hs1⟩ :=
          collect_ok_count pred s FaLv PredictPos TT f1 f2 s' hlt h
        constructor
        · intro lv hlv
          rw [hs1]
          exact patchesAt_writeBack_ne _ _ _ _ (by omega)
        · intro lv j
          rw [hs1]
          apply writeBack_clear_slot s FaLv _ (length_countResult s (pred TT) FaLv PredictPos true)
          intro j' hj'
          have hj0 : j' < (s.realAt FaLv).length := by
            rwa [length_countResult] at hj'
          exact (countResult_spec s (pred TT) FaLv PredictPos true hclean1 hson1 j' hj0).2.2
      · have hjc' : jc = false := by
          cases jc
          · rfl
          · exact absurd rfl hjc
        subst hjc'
        obtain ⟨hclean, hsrcg, hmatch, hson, hpos, hbox, hcons, hs2⟩ :=
          collect_ok_main pred s FaLv PredictPos TT f1 f2 s' hlt h
        constructor
        · intro lv hlv
          rw [hs2, collectBuffers_patchesAt_ne _ _ _ _ _ _ _ _ (by omega) (by omega)]
          exact patchesAt_writeBack_ne _ _ _ _ (by omega)
        · intro lv j
          rw [hs2, collectBuffers_clear_slot]
          apply writeBack_clear_slot s FaLv _ (length_mainResult s (pred TT) FaLv PredictPos)
          intro j' hj'
          have hj0 : j' < (s.realAt FaLv).length := by
            rwa [length_mainResult] at hj'
          exact (mainResult_spec s (pred TT) FaLv PredictPos hclean hpos hson j' hj0).1
    · have hs1 := collect_ok_max pred s FaLv PredictPos TT f1 f2 jc s' heq h
      constructor
      · intro lv hlv
        rw [hs1]
        exact collectBuffers_patchesAt_ne _ _ _ _ _ _ _ _ (by omega) (by omega)
      · intro lv j
        rw [hs1]
        exact collectBuffers_clear_slot _ _ _ _ _ _ _ _ _
    · have hs1 : s' = s := by
        unfold Par_LB_CollectParticle2OneLevel at h
        rw [if_pos hgt] at h
        exact (Except.ok.inj h).symm
      subst hs1
      exact ⟨fun _ _ => rfl, fun _ _ => rfl⟩
  refine ⟨main.1, ?_, main.2⟩
  intro lv hlv j
  rw [main.1 lv hlv]
  exact ⟨rfl, rfl⟩

theorem C5_no_mutation_witness :
    Par_LB_CollectParticle2OneLevel predId cC 0 false 0 false false false
      = .ok (writeBack cC 0 (mainResult cC (predId 0) 0 false)) ∧
    ((∀ lv, 0 < lv →
        (writeBack cC 0 (mainResult cC (predId 0) 0 false)).patchesAt lv
          = cC.patchesAt lv) ∧
     (∀ lv, 0 < lv → ∀ j,
        (((writeBack cC 0 (mainResult cC (predId 0) 0 false)).patchesAt lv).getD j default).NPar
          = ((cC.patchesAt lv).getD j default).NPar ∧
        (((writeBack cC 0 (mainResult cC (predId 0) 0 false)).patchesAt lv).getD j default).ParList
          = ((cC.patchesAt lv).getD j default).ParList) ∧
     (∀ lv j, clearShadow (((writeBack cC 0 (mainResult cC (predId 0) 0 false)).patchesAt lv).getD j default)
          = clearShadow ((cC.patchesAt lv).getD j default))) :=
  ⟨rfl, C5_no_mutation_of_finer_levels predId cC 0 false 0 false false false
    (writeBack cC 0 (mainResult cC (predId 0) 0 false)) rfl⟩

/-- C7: in the diagnostic build, calling the collector while some real patch
at the target level (at or below the maximum level) still has
`NPar_Copy != -1` or a non-NULL `ParMassPos_Copy` pointer is detected and
reported as a fatal error (the call aborts; no mutated state is returned) —
in particular a second call issued directly on the output of a successful
call is detected this way. -/
theorem C7_double_init_detected
    (pred : R → Nat → R × R × R → R × R × R) (s : AMRState) (FaLv : Nat)
    (pp : Bool) (TT : R) (f1 f2 jc : Bool)
    (hml : FaLv ≤ s.maxLevel)
    (hdirty : ∃ p ∈ s.realAt FaLv, ¬ shadowFree p) :
    ∃ e, Par_LB_CollectParticle2OneLevel pred s FaLv pp TT f1 f2 jc = .error e := by
  unfold Par_LB_CollectParticle2OneLevel
  rw [if_neg (by omega : ¬ s.maxLevel < FaLv)]
  by_cases h1 : (jc && pp) = true
  · rw [if_pos h1]
    exact ⟨_, rfl⟩
  rw [if_neg h1]
  by_cases h2 : (jc && f1) = true
  · rw [if_pos h2]
    exact ⟨_, rfl⟩
  rw [if_neg h2]
  by_cases h3 : (jc && f2) = true
  · rw [if_pos h3]
    exact ⟨_, rfl⟩
  rw [if_neg h3]
  have hcg : (!cleanGuard s FaLv) = true := by
    obtain ⟨p, hp, hnp⟩ := hdirty
    cases hcase : cleanGuard s FaLv
    · rfl
    · exact absurd (by simpa using List.all_eq_true.mp hcase p hp) hnp
  rw [if_pos hcg]
  exact ⟨_, rfl⟩

theorem C7_double_init_witness :
    (0 : Nat) ≤ cC.maxLevel ∧
    Par_LB_CollectParticle2OneLevel predId cC 0 false 0 false false false
      = .ok (writeBack cC 0 (mainResult cC (predId 0) 0 false)) ∧
    (∃ p ∈ (writeBack cC 0 (mainResult cC (predId 0) 0 false)).realAt 0, ¬ shadowFree p) ∧
    ∃ e, Par_LB_CollectParticle2OneLevel predId
        (writeBack cC 0 (mainResult cC (predId 0) 0 false)) 0 false 0 false false false
      = .error e :=
  ⟨by decide, rfl, by decide,
   C7_double_init_detected predId (writeBack cC 0 (mainResult cC (predId 0) 0 false))
     0 false 0 false false false (by decide) (by decide)⟩

/-!  ## Round-trip conservation (source step 5) -/

theorem sum_map_getD_range (f : Patch → Int) :
    ∀ (l : List Patch),
      ((List.range l.length).map (fun i => f (l.getD i default))).sum = (l.map f).sum
  | [] => rfl
  | p :: rest => by
      rw [List.length_cons, List.range_succ_eq_map, List.map_cons, List.map_map,
          List.sum_cons, List.map_cons, List.sum_cons]
      have hcg : (List.range rest.length).map
            ((fun i => f ((p :: rest).getD i default)) ∘ Nat.succ)
          = (List.range rest.length).map (fun i => f (rest.getD i default)) :=
        List.map_congr_left (fun i _ => by
          show f ((p :: rest).getD (i + 1) default) = f (rest.getD i default)
          rw [List.getD_cons_succ])
      rw [hcg, sum_map_getD_range f rest, List.getD_cons_zero]

theorem sum_map_add_int (f g : Nat → Int) :
    ∀ (l : List Nat),
      (l.map (fun x => f x + g x)).sum = (l.map f).sum + (l.map g).sum
  | [] => rfl
  | x :: rest => by
      rw [List.map_cons, List.sum_cons, List.map_cons, List.sum_cons,
          List.map_cons, List.sum_cons, sum_map_add_int f g rest]
      omega

theorem sum_indicator_range (j : Nat) (c : Int) :
    ∀ (n : Nat), ((List.range n).map (fun i => if j = i then c else 0)).sum
      = if j < n then c else 0
  | 0 => by simp
  | n + 1 => by
      rw [List.range_succ, List.map_append, List.sum_append, sum_indicator_range j c n]
      simp only [List.map_cons, List.map_nil, List.sum_cons, List.sum_nil]
      by_cases hj : j = n
      · subst hj
        rw [if_neg (by omega : ¬ j < j), if_pos rfl, if_pos (by omega : j < j + 1)]
        omega
      · rw [if_neg hj]
        by_cases hlt : j < n
        · rw [if_pos hlt, if_pos (by omega : j < n + 1)]
          omega
        · rw [if_neg hlt, if_neg (by omega : ¬ j < n + 1)]
          omega

theorem sum_rpSumAt_range (n : Nat) :
    ∀ (rp : List (SendRec × Nat)), (∀ ri ∈ rp, ri.2 < n) →
      ((List.range n).map (rpSumAt rp)).sum
        = (rp.map (fun ri => (ri.1.nPar : Int))).sum
  | [], _ => by
      have h0 : ∀ (m : List Nat), (m.map (rpSumAt [])).sum = 0 := fun m => by
        induction m with
        | nil => rfl
        | cons a t ih =>
            rw [List.map_cons, List.sum_cons, ih]
            rfl
      rw [h0 (List.range n)]
      rfl
  | ri :: rest, h => by
      have hstep : (List.range n).map (rpSumAt (ri :: rest))
          = (List.range n).map (fun i =>
              (if ri.2 = i then (ri.1.nPar : Int) else 0) + rpSumAt rest i) :=
        List.map_congr_left (fun i _ => rpSumAt_cons ri rest i)
      rw [hstep,
          sum_map_add_int (fun i => if ri.2 = i then (ri.1.nPar : Int) else 0)
            (rpSumAt rest) (List.range n),
          sum_indicator_range ri.2 (ri.1.nPar : Int) n,
          sum_rpSumAt_range n rest (fun x hx => h x (List.mem_cons_of_mem ri hx)),
          if_pos (h ri (List.mem_cons_self ri rest)),
          List.map_cons, List.sum_cons]

theorem sum_recsPid_nPar (reals : List Patch) :
    ∀ (recs : List SendRec), (∀ r ∈ recs, (matchIdx reals r.key).isSome = true) →
      ((recsPid reals recs).map (fun ri => (ri.1.nPar : Int))).sum
        = (recs.map (fun r => (r.nPar : Int))).sum
  | [], _ => rfl
  | r :: rest, h => by
      obtain ⟨idx, hidx⟩ := Option.isSome_iff_exists.mp (h r (List.mem_cons_self r rest))
      rw [recsPid_cons, hidx]
      show (((r, idx) :: recsPid reals rest).map (fun ri => (ri.1.nPar : Int))).sum = _
      rw [List.map_cons, List.sum_cons, List.map_cons, List.sum_cons,
          sum_recsPid_nPar reals rest (fun x hx => h x (List.mem_cons_of_mem r hx))]

theorem sum_filterMap_nPar (s : AMRState) (pd : Nat → R × R × R → R × R × R)
    (FaLv : Nat) (pp jc : Bool) :
    ∀ (L : List (Nat × Patch)),
      ((L.filterMap (fun lp =>
          if lp.2.NPar = 0 then none
          else some (⟨shiftKey FaLv lp.1 lp.2.LB_Idx, lp.2.NPar,
            if jc then [] else (patchParIDs lp.2).map (sentTuple s pd pp)⟩ : SendRec))).map
        (fun r => (r.nPar : Int))).sum
      = (L.map (fun lp => (lp.2.NPar : Int))).sum
  | [] => rfl
  | lp :: rest => by
      rw [List.filterMap_cons]
      by_cases hz : lp.2.NPar = 0
      · rw [if_pos hz]
        show ((rest.filterMap _).map (fun r : SendRec => (r.nPar : Int))).sum = _
        rw [sum_filterMap_nPar s pd FaLv pp jc rest, List.map_cons, List.sum_cons, hz]
        omega
      · rw [if_neg hz]
        show (((⟨shiftKey FaLv lp.1 lp.2.LB_Idx, lp.2.NPar,
            if jc then [] else (patchParIDs lp.2).map (sentTuple s pd pp)⟩ : SendRec)
              :: rest.filterMap _).map (fun r => (r.nPar : Int))).sum = _
        rw [List.map_cons, List.sum_cons, sum_filterMap_nPar s pd FaLv pp jc rest,
            List.map_cons, List.sum_cons]

theorem sum_mkRecs_nPar (s : AMRState) (pd : Nat → R × R × R → R × R × R)
    (FaLv : Nat) (pp jc : Bool) :
    ((mkRecs s pd FaLv pp jc).map (fun r => (r.nPar : Int))).sum
      = ((srcPatches s FaLv).map (fun lp => (lp.2.NPar : Int))).sum :=
  sum_filterMap_nPar s pd FaLv pp jc (srcPatches s FaLv)

theorem sum_srcLevels (s : AMRState) :
    ∀ (ls : List Nat),
      ((ls.flatMap (fun lv => (s.realAt lv).map (fun p => (lv, p)))).map
          (fun lp => (lp.2.NPar : Int))).sum
        = (ls.map (fun lv => ((s.realAt lv).map (fun q => (q.NPar : Int))).sum)).sum
  | [] => rfl
  | lv :: rest => by
      rw [List.flatMap_cons, List.map_append, List.sum_append, sum_srcLevels s rest,
          List.map_cons, List.sum_cons, List.map_map]
      have hmc : (s.realAt lv).map
            ((fun lp : Nat × Patch => (lp.2.NPar : Int)) ∘ (fun p => (lv, p)))
          = (s.realAt lv).map (fun q => (q.NPar : Int)) :=
        List.map_congr_left (fun p _ => rfl)
      rw [hmc]

theorem sum_srcPatches_nPar (s : AMRState) (FaLv : Nat) :
    ((srcPatches s FaLv).map (fun lp => (lp.2.NPar : Int))).sum
      = ((List.range' (FaLv + 1) (s.maxLevel - FaLv)).map
          (fun lv => ((s.realAt lv).map (fun q => (q.NPar : Int))).sum)).sum :=
  sum_srcLevels s (List.range' (FaLv + 1) (s.maxLevel - FaLv))

theorem countExpected_split (s : AMRState) (FaLv : Nat) (hlt : FaLv < s.maxLevel) :
    countExpected s FaLv
      = s.NPar_Lv.getD FaLv 0
        + ((List.range' (FaLv + 1) (s.maxLevel - FaLv)).map
            (fun lv => s.NPar_Lv.getD lv 0)).sum := by
  unfold countExpected
  rw [show s.maxLevel + 1 - FaLv = (s.maxLevel - FaLv) + 1 from by omega,
      List.range'_succ, List.map_cons, List.sum_cons]

theorem conservation_of_table (s : AMRState) (pd : Nat → R × R × R → R × R × R)
    (FaLv : Nat) (pp : Bool)
    (hlt : FaLv < s.maxLevel)
    (hclean : cleanGuard s FaLv = true)
    (hpos : posGuard s pd FaLv pp = true)
    (hson : sonGuard s pd FaLv pp false = true)
    (hmatch : matchGuard s pd FaLv pp false = true)
    (hNParLv : ∀ lv, lv ≤ s.maxLevel → FaLv ≤ lv →
        s.NPar_Lv.getD lv 0 = ((s.realAt lv).map (fun q => (q.NPar : Int))).sum) :
    countGet (mainResult s pd FaLv pp) = countExpected s FaLv := by
  have hridx : ∀ ri ∈ rpOf s pd FaLv pp false, ri.2 < (s.realAt FaLv).length := by
    intro ri hri
    obtain ⟨-, hm⟩ := mem_rpOf hri
    exact (matchIdx_some_spec (s.realAt FaLv) ri.1.key ri.2 hm).1
  have hkey : ∀ r ∈ mkRecs s pd FaLv pp false,
      (matchIdx (s.realAt FaLv) r.key).isSome = true := matchGuard_spec hmatch
  calc countGet (mainResult s pd FaLv pp)
      = ((List.range (mainResult s pd FaLv pp).length).map
          (fun i => if ((mainResult s pd FaLv pp).getD i default).son = -1
            then (((mainResult s pd FaLv pp).getD i default).NPar : Int)
            else ((mainResult s pd FaLv pp).getD i default).NPar_Copy)).sum :=
        (sum_map_getD_range
          (fun q => if q.son = -1 then (q.NPar : Int) else q.NPar_Copy)
          (mainResult s pd FaLv pp)).symm
    _ = ((List.range (s.realAt FaLv).length).map
          (fun i => (((s.realAt FaLv).getD i default).NPar : Int)
            + rpSumAt (rpOf s pd FaLv pp false) i)).sum := by
        rw [length_mainResult s pd FaLv pp]
        apply congrArg List.sum
        apply List.map_congr_left
        intro i hi
        have hi0 : i < (s.realAt FaLv).length := List.mem_range.mp hi
        obtain ⟨hC, hleaf, hnl⟩ := mainResult_spec s pd FaLv pp hclean hpos hson i hi0
        by_cases hs : ((s.realAt FaLv).getD i default).son = -1
        · rw [hleaf hs, if_pos hs,
              rpSumAt_of_leaf (rpOf s pd FaLv pp false) (s.realAt FaLv) i
                (sonGuard_spec hson) hs]
          omega
        · rw [if_neg (show ¬ ((mainResult s pd FaLv pp).getD i default).son = -1 from by
              rw [clear_son hC]; exact hs)]
          exact (hnl hs).1
    _ = ((List.range (s.realAt FaLv).length).map
          (fun i => (((s.realAt FaLv).getD i default).NPar : Int))).sum
        + ((List.range (s.realAt FaLv).length).map
            (rpSumAt (rpOf s pd FaLv pp false))).sum :=
        sum_map_add_int (fun i => (((s.realAt FaLv).getD i default).NPar : Int))
          (rpSumAt (rpOf s pd FaLv pp false)) (List.range (s.realAt FaLv).length)
    _ = ((s.realAt FaLv).map (fun q => (q.NPar : Int))).sum
        + ((rpOf s pd FaLv pp false).map (fun ri => (ri.1.nPar : Int))).sum := by
        rw [sum_map_getD_range (fun q => (q.NPar : Int)) (s.realAt FaLv),
            sum_rpSumAt_range (s.realAt FaLv).length (rpOf s pd FaLv pp false) hridx]
    _ = ((s.realAt FaLv).map (fun q => (q.NPar : Int))).sum
        + ((mkRecs s pd FaLv pp false).map (fun r => (r.nPar : Int))).sum :=
        congrArg (fun z => ((s.realAt FaLv).map (fun q => (q.NPar : Int))).sum + z)
          (sum_recsPid_nPar (s.realAt FaLv) (mkRecs s pd FaLv pp false) hkey)
    _ = ((s.realAt FaLv).map (fun q => (q.NPar : Int))).sum
        + ((List.range' (FaLv + 1) (s.maxLevel - FaLv)).map
            (fun lv => ((s.realAt lv).map (fun q => (q.NPar : Int))).sum)).sum := by
        rw [sum_mkRecs_nPar s pd FaLv pp false, sum_srcPatches_nPar s FaLv]
    _ = s.NPar_Lv.getD FaLv 0
        + ((List.range' (FaLv + 1) (s.maxLevel - FaLv)).map
            (fun lv => s.NPar_Lv.getD lv 0)).sum := by
        rw [← hNParLv FaLv (by omega) (by omega)]
        apply congrArg (fun z => s.NPar_Lv.getD FaLv 0 + z)
        apply congrArg List.sum
        apply List.map_congr_left
        intro lv hlv
        obtain ⟨i, hin, rfl⟩ := List.mem_range'.mp hlv
        exact (hNParLv _ (by omega) (by omega)).symm
    _ = countExpected s FaLv := (countExpected_split s FaLv hlt).symm

/-- C2: round-trip conservation.  When the independently tracked per-level
table `NPar_Lv` is consistent with the actual resident counts of the real
patches at every level from the target level up to the maximum level, a
successful full collection returns a state in which the sum over the real
patches at the target level of (`NPar` for leaf patches, `NPar_Copy` for
non-leaf patches) equals the `NPar_Lv` table summed over all levels at or
above the target level.  The identity is derived from the collection pipeline
itself (seed + routed receive totals), not read off the code's own
conservation check. -/
theorem C2_round_trip_conservation
    (pred : R → Nat → R × R × R → R × R × R) (s : AMRState) (FaLv : Nat)
    (PredictPos : Bool) (TT : R) (f1 f2 : Bool) (s' : AMRState)
    (hlt : FaLv < s.maxLevel)
    (hbuf : ∀ pid ∈ s.sibBuffList FaLv, s.nReal FaLv ≤ pid)
    (hNParLv : ∀ lv, lv ≤ s.maxLevel → FaLv ≤ lv →
        s.NPar_Lv.getD lv 0 = ((s.realAt lv).map (fun q => (q.NPar : Int))).sum)
    (h : Par_LB_CollectParticle2OneLevel pred s FaLv PredictPos TT f1 f2 false = .ok s') :
    countGet (s'.realAt FaLv) = countExpected s FaLv := by
  obtain ⟨hclean, hsrcg, hmatch, hson, hpos, hbox, hcons, hs'⟩ :=
    collect_ok_main pred s FaLv PredictPos TT f1 f2 s' hlt h
  have hre : s'.realAt FaLv = mainResult s (pred TT) FaLv PredictPos := by
    rw [hs']
    exact collect_realAt_eq s (pred TT) FaLv PredictPos f1 f2 false _ hbuf
      (length_mainResult s (pred TT) FaLv PredictPos)
  rw [hre]
  exact conservation_of_table s (pred TT) FaLv PredictPos hlt hclean hpos hson hmatch hNParLv

theorem C2_round_trip_witness :
    (0 : Nat) < cC.maxLevel ∧
    (∀ pid ∈ cC.sibBuffList 0, cC.nReal 0 ≤ pid) ∧
    (∀ lv, lv ≤ cC.maxLevel → 0 ≤ lv →
        cC.NPar_Lv.getD lv 0 = ((cC.realAt lv).map (fun q => (q.NPar : Int))).sum) ∧
    Par_LB_CollectParticle2OneLevel predId cC 0 false 0 false false false
      = .ok (writeBack cC 0 (mainResult cC (predId 0) 0 false)) ∧
    countGet ((writeBack cC 0 (mainResult cC (predId 0) 0 false)).realAt 0)
      = countExpected cC 0 :=
  ⟨by decide, by decide, by decide, rfl,
   C2_round_trip_conservation predId cC 0 false 0 false false
     (writeBack cC 0 (mainResult cC (predId 0) 0 false))
     (by decide) (by decide) (by decide) rfl⟩

/-!  ## Ownership keys: the HILBERT fast path against the generic path -/

theorem interleave3_eq (x y z : Nat) :
    interleave3 x y z = if x + y + z = 0 then 0
      else x % 2 + 2 * (y % 2) + 4 * (z % 2) + 8 * interleave3 (x / 2) (y / 2) (z / 2) := by
  rw [interleave3]

theorem interleave3_zero : interleave3 0 0 0 = 0 := by
  rw [interleave3_eq]
  norm_num

theorem interleave3_div_eight (x y z : Nat) :
    interleave3 x y z / 8 = interleave3 (x / 2) (y / 2) (z / 2) := by
  by_cases h0 : x + y + z = 0
  · obtain ⟨hx, hy, hz⟩ : x = 0 ∧ y = 0 ∧ z = 0 := by omega
    subst hx; subst hy; subst hz
    norm_num [interleave3_zero]
  · rw [interleave3_eq x y z, if_neg h0]
    have hr : x % 2 + 2 * (y % 2) + 4 * (z % 2) < 8 := by omega
    rw [Nat.add_mul_div_left _ _ (by norm_num : 0 < 8), Nat.div_eq_of_lt hr]
    omega

theorem interleave3_div_pow (x y z : Nat) :
    ∀ (k : Nat), interleave3 x y z / 8 ^ k
      = interleave3 (x / 2 ^ k) (y / 2 ^ k) (z / 2 ^ k)
  | 0 => by norm_num
  | k + 1 => by
      rw [pow_succ, ← Nat.div_div_eq_div_mul, interleave3_div_pow x y z k,
          interleave3_div_eight, pow_succ, ← Nat.div_div_eq_div_mul,
          ← Nat.div_div_eq_div_mul, ← Nat.div_div_eq_div_mul]

theorem sub_mod_div (c S : Nat) : (c - c % S) / S = c / S := by
  by_cases hS : S = 0
  · subst hS
    simp
  · have h := Nat.mod_add_div c S
    have hc : c - c % S = S * (c / S) := by omega
    rw [hc, Nat.mul_div_cancel_left _ (by omega : 0 < S)]

theorem fastpath_eq_generic (FaLv lv : Nat) (scale : Nat) (cr : Nat × Nat × Nat) :
    shiftKey FaLv lv (LB_Corner2Index scale cr)
      = LB_Corner2Index (scale * 2 ^ (lv - FaLv))
          (truncCorner (scale * 2 ^ (lv - FaLv)) cr) := by
  unfold shiftKey LB_Corner2Index truncCorner
  dsimp only
  rw [show (2 : Nat) ^ (3 * (lv - FaLv)) = 8 ^ (lv - FaLv) from by
        rw [pow_mul]
        norm_num,
      interleave3_div_pow, Nat.div_div_eq_div_mul, Nat.div_div_eq_div_mul,
      Nat.div_div_eq_div_mul, sub_mod_div, sub_mod_div, sub_mod_div]

/-- C4: the ownership mapping is deterministic and path-independent.
`LB_Index2Rank` is a pure function of the (level, key) pair, so equal keys
always yield equal ranks, and for a patch at level `lv` whose ownership key
is the encoding of its own corner at its own patch scale, the fast-path key
`LB_Idx / 2 ^ (3 * (lv - FaLv))` equals the generic-path key obtained by
truncating each corner coordinate to the coarse patch scale
(`scale * 2 ^ (lv - FaLv)`) and encoding the truncated corner. -/
theorem C4_ownership_key_paths
    (cut : Nat → List Nat) (FaLv lv : Nat) (scale : Nat) (p : Patch)
    (hkey : p.LB_Idx = LB_Corner2Index scale p.corner) :
    (∀ k k', k = k' → LB_Index2Rank cut FaLv k = LB_Index2Rank cut FaLv k') ∧
    shiftKey FaLv lv p.LB_Idx
      = LB_Corner2Index (scale * 2 ^ (lv - FaLv))
          (truncCorner (scale * 2 ^ (lv - FaLv)) p.corner) := by
  refine ⟨fun k k' hk => by rw [hk], ?_⟩
  rw [hkey]
  exact fastpath_eq_generic FaLv lv scale p.corner

theorem C4_ownership_witness :
    childP.LB_Idx = LB_Corner2Index 4 childP.corner ∧
    ((∀ k k', k = k' →
        LB_Index2Rank (fun _ => [0]) 0 k = LB_Index2Rank (fun _ => [0]) 0 k') ∧
     shiftKey 0 1 childP.LB_Idx
       = LB_Corner2Index (4 * 2 ^ (1 - 0)) (truncCorner (4 * 2 ^ (1 - 0)) childP.corner)) := by
  have hk : childP.LB_Idx = LB_Corner2Index 4 childP.corner := by
    show (1 : Nat) = interleave3 (4 / 4) (0 / 4) (0 / 4)
    norm_num
    rw [interleave3_eq]
    norm_num
    rw [interleave3_zero]
  exact ⟨hk, C4_ownership_key_paths (fun _ => [0]) 0 1 4 childP hk⟩

/-!  ## Home-patch bounds of the collected shadow data -/

theorem clear_EdgeL {p q : Patch} (h : clearShadow p = clearShadow q) :
    p.EdgeL = q.EdgeL := by
  have h2 := congrArg Patch.EdgeL h
  exact h2

theorem clear_EdgeR {p q : Patch} (h : clearShadow p = clearShadow q) :
    p.EdgeR = q.EdgeR := by
  have h2 := congrArg Patch.EdgeR h
  exact h2

theorem inPatchBox_congr {p q : Patch} (h : clearShadow p = clearShadow q)
    (t : R × R × R × R) : inPatchBox p t = inPatchBox q t := by
  unfold inPatchBox
  rw [clear_EdgeL h, clear_EdgeR h]

theorem getD_mem_of_lt : ∀ (l : List Patch) (i : Nat), i < l.length →
    l.getD i default ∈ l
  | p :: rest, 0, _ => List.mem_cons_self _ _
  | p :: rest, i + 1, h => by
      rw [List.getD_cons_succ]
      exact List.mem_cons_of_mem _
        (getD_mem_of_lt rest i (Nat.lt_of_succ_lt_succ (by simpa using h)))

/-- C6: bounds preservation with `PredictPos = false`.  Under the geometric
invariants that (1) every particle of a finer-level source patch lies inside
that patch's half-open box, (2) a finer-level patch whose shifted ownership
key equals a target-level real patch's key lies spatially inside it (so its
particles do too), and (3) every particle temporarily residing in a
target-level real patch lies inside that patch's box, a successful full
collection leaves every target-level real patch either with NULL shadow
arrays or with shadow arrays holding exactly a list of 4-field blocks whose
three position components all lie inside that destination patch's half-open
bounds — including the in-flight resident particles appended by the merge
step, which the code's own diagnostic check does not cover. -/
theorem C6_bounds_no_prediction
    (pred : R → Nat → R × R × R → R × R × R) (s : AMRState) (FaLv : Nat)
    (TT : R) (f1 f2 : Bool) (s' : AMRState)
    (hlt : FaLv < s.maxLevel)
    (hbuf : ∀ pid ∈ s.sibBuffList FaLv, s.nReal FaLv ≤ pid)
    (h1 : ∀ lp ∈ srcPatches s FaLv, ∀ id ∈ patchParIDs lp.2,
        inPatchBox lp.2 (rawTuple s id) = true)
    (h2 : ∀ lv p, (lv, p) ∈ srcPatches s FaLv → ∀ q ∈ s.realAt FaLv,
        shiftKey FaLv lv p.LB_Idx = q.LB_Idx →
        ∀ t, inPatchBox p t = true → inPatchBox q t = true)
    (h3 : ∀ q ∈ s.realAt FaLv, ∀ id ∈ patchParIDs q,
        inPatchBox q (rawTuple s id) = true)
    (h : Par_LB_CollectParticle2OneLevel pred s FaLv false TT f1 f2 false = .ok s') :
    ∀ i, i < (s'.realAt FaLv).length →
      ((s'.realAt FaLv).getD i default).ParMassPos_Copy = ShadowPtrs.null ∨
      ∃ ts, (∀ t ∈ ts,
          inPatchBox ((s'.realAt FaLv).getD i default) t = true) ∧
        ((s'.realAt FaLv).getD i default).ParMassPos_Copy = pushList ts emptyShadow := by
  obtain ⟨hclean, hsrcg, hmatch, hson, hpos, hboxg, hcons, hs'⟩ :=
    collect_ok_main pred s FaLv false TT f1 f2 s' hlt h
  have hre : s'.realAt FaLv = mainResult s (pred TT) FaLv false := by
    rw [hs']
    exact collect_realAt_eq s (pred TT) FaLv false f1 f2 false _ hbuf
      (length_mainResult s (pred TT) FaLv false)
  intro i hi
  have hi0 : i < (s.realAt FaLv).length := by
    rw [hre, length_mainResult] at hi
    exact hi
  obtain ⟨hC, hleaf, hnl⟩ := mainResult_spec s (pred TT) FaLv false hclean hpos hson i hi0
  by_cases hsn : ((s.realAt FaLv).getD i default).son = -1
  · left
    rw [hre, hleaf hsn]
    exact (cleanGuard_spec hclean i hi0).2
  · obtain ⟨hN, hdisj⟩ := hnl hsn
    cases hdisj with
    | inl hz =>
        left
        rw [hre]
        exact hz.2
    | inr hsh =>
        right
        refine ⟨rpDataAt (rpOf s (pred TT) FaLv false false) i
          ++ (if 0 < ((s.realAt FaLv).getD i default).NPar then
                (patchParIDs ((s.realAt FaLv).getD i default)).map (rawTuple s) else []),
          ?_, ?_⟩
        · intro t ht
          rw [hre, inPatchBox_congr hC]
          cases List.mem_append.mp ht with
          | inl hrecv =>
              obtain ⟨ri, hri, hri2, htd⟩ := mem_rpDataAt hrecv
              obtain ⟨hrec, hmidx⟩ := mem_rpOf hri
              obtain ⟨hltq, hkeq⟩ :=
                matchIdx_some_spec (s.realAt FaLv) ri.1.key ri.2 hmidx
              obtain ⟨lv, p, hsrc, hnz, hkey, hnpar, hdata⟩ := mem_mkRecs hrec
              have htd2 : t ∈ (patchParIDs p).map (sentTuple s (pred TT) false) := by
                rw [hdata] at htd
                exact htd
              obtain ⟨id, hid, rfl⟩ := List.mem_map.mp htd2
              have hbp : inPatchBox p (rawTuple s id) = true := h1 (lv, p) hsrc id hid
              have hkq : shiftKey FaLv lv p.LB_Idx
                  = ((s.realAt FaLv).getD i default).LB_Idx := by
                rw [← hkey, ← hri2]
                exact hkeq.symm
              exact h2 lv p hsrc ((s.realAt FaLv).getD i default)
                (getD_mem_of_lt (s.realAt FaLv) i hi0) hkq
                (sentTuple s (pred TT) false id) hbp
          | inr hres =>
              by_cases hnp : 0 < ((s.realAt FaLv).getD i default).NPar
              · rw [if_pos hnp] at hres
                obtain ⟨id, hid, rfl⟩ := List.mem_map.mp hres
                exact h3 ((s.realAt FaLv).getD i default)
                  (getD_mem_of_lt (s.realAt FaLv) i hi0) id hid
              · rw [if_neg hnp] at hres
                cases hres
        · rw [hre]
          exact hsh

theorem C6_bounds_witness :
    (0 : Nat) < cC.maxLevel ∧
    (∀ pid ∈ cC.sibBuffList 0, cC.nReal 0 ≤ pid) ∧
    (∀ lp ∈ srcPatches cC 0, ∀ id ∈ patchParIDs lp.2,
        inPatchBox lp.2 (rawTuple cC id) = true) ∧
    (∀ q ∈ cC.realAt 0, ∀ id ∈ patchParIDs q,
        inPatchBox q (rawTuple cC id) = true) ∧
    Par_LB_CollectParticle2OneLevel predId cC 0 false 0 false false false
      = .ok (writeBack cC 0 (mainResult cC (predId 0) 0 false)) ∧
    (∀ i, i < ((writeBack cC 0 (mainResult cC (predId 0) 0 false)).realAt 0).length →
      (((writeBack cC 0 (mainResult cC (predId 0) 0 false)).realAt
          0).getD i default).ParMassPos_Copy = ShadowPtrs.null ∨
      ∃ ts, (∀ t ∈ ts,
          inPatchBox (((writeBack cC 0 (mainResult cC (predId 0) 0 false)).realAt
            0).getD i default) t = true) ∧
        (((writeBack cC 0 (mainResult cC (predId 0) 0 false)).realAt
            0).getD i default).ParMassPos_Copy = pushList ts emptyShadow) := by
  have hgeo : ∀ lv p, (lv, p) ∈ srcPatches cC 0 → ∀ q ∈ cC.realAt 0,
      shiftKey 0 lv p.LB_Idx = q.LB_Idx →
      ∀ t, inPatchBox p t = true → inPatchBox q t = true := by
    intro lv p hsrc q hq hk t ht
    have hsrc2 : (lv, p) = (1, childP) := by
      rw [show srcPatches cC 0 = [(1, childP)] from rfl] at hsrc
      simpa using hsrc
    have hp2 : p = childP := congrArg Prod.snd hsrc2
    have hq2 : q = fatherP := by
      rw [show cC.realAt 0 = [fatherP] from rfl] at hq
      simpa using hq
    subst hp2
    subst hq2
    simp only [inPatchBox, childP, fatherP, decide_eq_true_eq] at ht ⊢
    obtain ⟨a1, a2, a3, a4, a5, a6⟩ := ht
    refine ⟨?_, ?_, ?_, ?_, ?_, ?_⟩ <;> linarith
  exact ⟨by decide, by decide, by decide, by decide, rfl,
    C6_bounds_no_prediction predId cC 0 0 false false
      (writeBack cC 0 (mainResult cC (predId 0) 0 false))
      (by decide) (by decide) (by decide) hgeo (by decide) rfl⟩
